import Mathlib

/-!
Verification of the camera-data imputation engine (robot.py / robot_new.py).

The development shallowly embeds the numeric and stateful core of the engine:

* pandas/numpy statistics (`mean`, sample/population variance, linearly
  interpolated quantiles, `median`) are modelled exactly over `ℚ`; the
  float arithmetic of the source is idealised as exact rational arithmetic.
* Python `int(x)` (truncation toward zero) is `pyInt`.
* The SQLite table `peopleflowtotals` is a list of `FlowRow` (the table has
  columns `created_at, camera_id, total_inside, total_outside, valid` and,
  per the data-model invariant, timestamps are truncated to the hour, so a
  timestamp is a `(date, hour)` pair; dates are day numbers and the weekday
  of a date is `date % 7`).
* Exceptions that abort a processing pass are modelled with `Option`.
-/

namespace Estimator

/-- Python `int(x)`: truncation toward zero. -/
def pyInt (q : ℚ) : ℤ := if q < 0 then -⌊-q⌋ else ⌊q⌋

/-- pandas `.mean()`: sum divided by length (0 for the empty list, where
pandas would give NaN; all uses in the source are guarded by counts). -/
def meanQ (l : List ℚ) : ℚ := l.sum / (l.length : ℚ)

/-- pandas `.std() ** 2` with `ddof = 1` (sample variance); `0` for lists of
length `≤ 1`, where pandas yields NaN (all NaN comparisons in the source
evaluate to false, matching a variance of 0 in every guard). -/
def svarQ (l : List ℚ) : ℚ :=
  (l.map (fun x => (x - meanQ l) ^ 2)).sum / ((l.length : ℚ) - 1)

/-- numpy `np.std(l) ** 2` with `ddof = 0` (population variance). -/
def pvarQ (l : List ℚ) : ℚ :=
  (l.map (fun x => (x - meanQ l) ^ 2)).sum / (l.length : ℚ)

/-- Ascending sort, as used by `np.median` and pandas `.quantile`. -/
def sortQ (l : List ℚ) : List ℚ := l.insertionSort (· ≤ ·)

/-- Linear interpolation into a sorted list at fractional position `p`:
`s_i + frac · (s_{i+1} - s_i)` where `i = ⌊p⌋` (reading past the end
repeats the last value read). -/
def interpQ (s : List ℚ) (p : ℚ) : ℚ :=
  s.getD ⌊p⌋.toNat 0 +
    (p - ⌊p⌋) * (s.getD (⌊p⌋.toNat + 1) (s.getD ⌊p⌋.toNat 0) -
      s.getD ⌊p⌋.toNat 0)

/-- pandas `.quantile(q)` with the default linear interpolation: for the
sorted values `s_0 ≤ … ≤ s_{n-1}`, the value at fractional position
`q * (n - 1)`. -/
def quantileQ (q : ℚ) (l : List ℚ) : ℚ :=
  interpQ (sortQ l) (q * ((l.length : ℚ) - 1))

/-- `np.median` / pandas `.median()`: the interpolated 50% quantile (the
middle element for odd length, the average of the two middle elements for
even length). -/
def medianQ (l : List ℚ) : ℚ := quantileQ (1 / 2) l

theorem pyInt_nonneg {q : ℚ} (h : 0 ≤ q) : 0 ≤ pyInt q := by
  unfold pyInt
  rw [if_neg (not_lt.mpr h)]
  exact_mod_cast Int.le_floor.mpr (by exact_mod_cast h)

theorem pyInt_le {q : ℚ} (h : 0 ≤ q) : (pyInt q : ℚ) ≤ q := by
  unfold pyInt
  rw [if_neg (not_lt.mpr h)]
  exact Int.floor_le q

theorem lt_pyInt_add_one {q : ℚ} (h : 0 ≤ q) : q < pyInt q + 1 := by
  unfold pyInt
  rw [if_neg (not_lt.mpr h)]
  exact_mod_cast Int.lt_floor_add_one q

theorem mean_nonneg {l : List ℚ} (h : ∀ x ∈ l, 0 ≤ x) : 0 ≤ meanQ l := by
  unfold meanQ
  exact div_nonneg (List.sum_nonneg h) (by positivity)

theorem sortQ_sorted (l : List ℚ) : (sortQ l).Sorted (· ≤ ·) :=
  List.sorted_insertionSort _ l

theorem sortQ_perm (l : List ℚ) : List.Perm (sortQ l) l :=
  List.perm_insertionSort _ l

theorem mem_sortQ {x : ℚ} {l : List ℚ} : x ∈ sortQ l ↔ x ∈ l :=
  (sortQ_perm l).mem_iff

theorem sortQ_length (l : List ℚ) : (sortQ l).length = l.length :=
  (sortQ_perm l).length_eq

/-- Elements of a sorted list are monotone in the index (with `getD`,
provided the larger index is in range). -/
theorem sorted_getD_mono {s : List ℚ} (hs : s.Sorted (· ≤ ·)) {i j : ℕ}
    (hij : i ≤ j) (hj : j < s.length) (d d' : ℚ) : s.getD i d ≤ s.getD j d' := by
  have hi : i < s.length := lt_of_le_of_lt hij hj
  rw [List.getD_eq_getElem s d hi, List.getD_eq_getElem s d' hj]
  rcases eq_or_lt_of_le hij with rfl | hlt
  · exact le_refl _
  · exact List.Sorted.rel_get_of_lt hs (by simpa using hlt)

theorem frac_nonneg (p : ℚ) : 0 ≤ p - ⌊p⌋ := sub_nonneg.mpr (Int.floor_le p)

theorem frac_le_one (p : ℚ) : p - ⌊p⌋ ≤ 1 := by
  have := Int.lt_floor_add_one p
  push_cast at this ⊢
  linarith

theorem getD_nonneg {s : List ℚ} (h : ∀ x ∈ s, 0 ≤ x) (i : ℕ) {d : ℚ}
    (hd : 0 ≤ d) : 0 ≤ s.getD i d := by
  by_cases hin : i < s.length
  · exact h _ (by rw [List.getD_eq_getElem s d hin]; exact List.getElem_mem _)
  · rw [List.getD_eq_default s d (not_lt.mp hin)]; exact hd

theorem interp_nonneg {s : List ℚ} (h : ∀ x ∈ s, 0 ≤ x) (p : ℚ) :
    0 ≤ interpQ s p := by
  unfold interpQ
  have hlo : 0 ≤ s.getD ⌊p⌋.toNat 0 := getD_nonneg h _ le_rfl
  have hhi : 0 ≤ s.getD (⌊p⌋.toNat + 1) (s.getD ⌊p⌋.toNat 0) :=
    getD_nonneg h _ hlo
  nlinarith [frac_nonneg p, frac_le_one p]

theorem getD_le_getD_succ {s : List ℚ} (hs : s.Sorted (· ≤ ·)) (i : ℕ) :
    s.getD i 0 ≤ s.getD (i + 1) (s.getD i 0) := by
  by_cases hin : i + 1 < s.length
  · exact sorted_getD_mono hs (Nat.le_succ i) hin 0 _
  · rw [List.getD_eq_default _ _ (not_lt.mp hin)]

theorem lo_le_interp {s : List ℚ} (hs : s.Sorted (· ≤ ·)) (p : ℚ) :
    s.getD ⌊p⌋.toNat 0 ≤ interpQ s p := by
  unfold interpQ
  nlinarith [frac_nonneg p, getD_le_getD_succ hs ⌊p⌋.toNat]

theorem interp_le_hi {s : List ℚ} (hs : s.Sorted (· ≤ ·)) (p : ℚ) :
    interpQ s p ≤ s.getD (⌊p⌋.toNat + 1) (s.getD ⌊p⌋.toNat 0) := by
  unfold interpQ
  nlinarith [frac_le_one p, getD_le_getD_succ hs ⌊p⌋.toNat]

theorem quantile_nonneg {l : List ℚ} (h : ∀ x ∈ l, 0 ≤ x)
    (q : ℚ) : 0 ≤ quantileQ q l :=
  interp_nonneg (fun x hx => h x (mem_sortQ.mp hx)) _

/-- Interpolated quantiles are monotone in the level `q` (on a nonempty
list, for levels in `[0, 1]`). -/
theorem quantile_mono {l : List ℚ} (hne : l ≠ []) {a b : ℚ}
    (ha : 0 ≤ a) (hab : a ≤ b) (hb : b ≤ 1) : quantileQ a l ≤ quantileQ b l := by
  unfold quantileQ
  set s := sortQ l with hsdef
  have hs : s.Sorted (· ≤ ·) := sortQ_sorted l
  have hlen : s.length = l.length := sortQ_length l
  have hn1 : 1 ≤ l.length := List.length_pos.mpr hne
  have hn1q : (0:ℚ) ≤ (l.length : ℚ) - 1 := by
    have : (1:ℚ) ≤ (l.length : ℚ) := by exact_mod_cast hn1
    linarith
  set pa : ℚ := a * ((l.length : ℚ) - 1) with hpa
  set pb : ℚ := b * ((l.length : ℚ) - 1) with hpb
  have hpa0 : 0 ≤ pa := mul_nonneg ha hn1q
  have hpb0 : 0 ≤ pb := mul_nonneg (le_trans ha hab) hn1q
  have hpab : pa ≤ pb := mul_le_mul_of_nonneg_right hab hn1q
  have hpbn : pb ≤ (l.length : ℚ) - 1 := by
    calc pb ≤ 1 * ((l.length : ℚ) - 1) := mul_le_mul_of_nonneg_right hb hn1q
    _ = (l.length : ℚ) - 1 := one_mul _
  have hib_lt : ⌊pb⌋.toNat < s.length := by
    have h1 : ⌊pb⌋ ≤ (l.length : ℤ) - 1 := by
      rw [Int.floor_le_iff]
      push_cast
      linarith
    rw [hlen]
    omega
  have hia_le : ⌊pa⌋.toNat ≤ ⌊pb⌋.toNat := by
    have := Int.floor_le_floor hpab
    omega
  rcases eq_or_lt_of_le hia_le with heq | hlt
  · -- same base index: only the fractional part grows
    have hfloor_eq : ⌊pa⌋ = ⌊pb⌋ := by
      have h0a : 0 ≤ ⌊pa⌋ := Int.floor_nonneg.mpr hpa0
      have h0b : 0 ≤ ⌊pb⌋ := Int.floor_nonneg.mpr hpb0
      omega
    unfold interpQ
    rw [heq, hfloor_eq]
    have hfr : pa - ⌊pb⌋ ≤ pb - ⌊pb⌋ := by linarith
    nlinarith [getD_le_getD_succ hs ⌊pb⌋.toNat]
  · -- strictly larger base index: chain through the sorted list
    calc interpQ s pa
        ≤ s.getD (⌊pa⌋.toNat + 1) (s.getD ⌊pa⌋.toNat 0) := interp_le_hi hs pa
      _ ≤ s.getD ⌊pb⌋.toNat 0 := sorted_getD_mono hs hlt hib_lt _ _
      _ ≤ interpQ s pb := lo_le_interp hs pb

/-! ## Data model

`FlowRow` is one row of the `peopleflowtotals` table as created by
`setup_camera_data_db.py` (columns `id, created_at, camera_id,
total_inside, total_outside, valid`; the autoincrement `id` is the list
position order, and `created_at` is the pair `(date, hour)`).  Note the
table has no `estimated` column.

`Camera` is the slice of a `login_camera` row used by the engine: the id
and the per-weekday `(counting_hour_*, counting_hour_*_qtd)` schedule
columns (`none` models SQL NULL / NaN).  `client/location` are omitted:
the engine only copies them into in-memory records and never persists
them through `insert_estimated_data`. -/

structure FlowRow where
  camera : ℕ
  date : ℕ
  hour : ℕ
  inside : ℤ
  outside : ℤ
  valid : ℕ
deriving DecidableEq, Repr

/-- The in-memory estimated record built by `estimate_missing_data`
(the dict with keys `created_at, camera_id, total_inside, total_outside,
valid, estimated, client, location`). -/
structure EstRec where
  camera : ℕ
  date : ℕ
  hour : ℕ
  inside : ℤ
  outside : ℤ
  valid : ℕ
  estimated : ℕ
deriving DecidableEq, Repr

structure Camera where
  id : ℕ
  schedule : ℕ → Option ℤ × Option ℤ

/-- `created_at.dt.weekday` as a function of the day number. -/
def weekday (d : ℕ) : ℕ := d % 7

def rowTotal (r : FlowRow) : ℤ := r.inside + r.outside

/-! ## robot.py : schedule resolver and window accessors -/

def findCamera (cams : List Camera) (cid : ℕ) : Option Camera :=
  cams.find? (fun c => c.id == cid)

/-- `CameraDataImputer.get_camera_active_hours` (robot.py:191): the raw
schedule values clamped into `[0, 23]`; `(0, 23)` when the camera or the
weekday entry is absent.  The two components are NOT reordered. -/
def getCameraActiveHours (cams : List Camera) (cid wd : ℕ) : ℤ × ℤ :=
  match findCamera cams cid with
  | none => (0, 23)
  | some cam =>
    if wd < 7 then
      match cam.schedule wd with
      | (some s, some e) => (max 0 (min 23 s), max 0 (min 23 e))
      | _ => (0, 23)
    else (0, 23)

/-- `list(range(start_hour, end_hour + 1))`; since both bounds are clamped
into `[0, 23]` this equals the ascending hours `h < 24` with
`start ≤ h ≤ end` (empty when `start > end`). -/
def activeList (cams : List Camera) (cid wd : ℕ) : List ℕ :=
  (List.range 24).filter (fun h =>
    decide ((getCameraActiveHours cams cid wd).1 ≤ (h : ℤ)) &&
    decide ((h : ℤ) ≤ (getCameraActiveHours cams cid wd).2))

/-- The `(camera, hour, weekday)` filter used throughout robot.py on the
loaded `flow_df` (`_get_historical_statistics`, `_get_hourly_ratio`,
`_apply_sanity_checks`, `_get_own_history_baseline`, …).  There is no
date restriction: rows of the target date itself are included. -/
def histRows (flow : List FlowRow) (cid hour wd : ℕ) : List FlowRow :=
  flow.filter (fun r => r.camera == cid && r.hour == hour && weekday r.date == wd)

def histTotalsQ (flow : List FlowRow) (cid hour wd : ℕ) : List ℚ :=
  (histRows flow cid hour wd).map (fun r => ((rowTotal r : ℚ)))

/-- The target-day rows for one camera-hour in
`identify_failing_cameras` (the `target_data` restricted to one camera
and hour). -/
def hourRows (flow : List FlowRow) (cid T h : ℕ) : List FlowRow :=
  flow.filter (fun r => r.camera == cid && r.date == T && r.valid == 1 && r.hour == h)

/-! ## robot.py : failure detector (`identify_failing_cameras`, 250-387)

Criteria, first match wins:
missing data; ratio to the historical mean below 0.1; below 20% of the
mean; more than 3 sample standard deviations from the mean (stated here
with squares, `z > 3 ↔ (cur - mean)² > 9·var` for positive variance);
inside share outside `[0.3, 0.9]`; and, when fewer than 3 historical
points exist, an absolute floor of 10. -/

def hourIsFailing (flow : List FlowRow) (cid T h : ℕ) : Bool :=
  match (hourRows flow cid T h).head? with
  | none => true
  | some row =>
    let cur : ℤ := rowTotal row
    let totals := histTotalsQ flow cid h (weekday T)
    let avg := meanQ totals
    if 3 ≤ totals.length ∧ 0 < avg then
      if (cur : ℚ) / avg < 1 / 10 then true
      else if (cur : ℚ) < avg * (2 / 10) then true
      else if 0 < svarQ totals ∧ 9 * svarQ totals < ((cur : ℚ) - avg) ^ 2 then true
      else if 0 < row.inside ∧ 0 < row.outside ∧
          ((row.inside : ℚ) / (cur : ℚ) < 3 / 10 ∨ (9 : ℚ) / 10 < (row.inside : ℚ) / (cur : ℚ))
        then true
      else false
    else decide (cur < 10)

def failingHours (flow : List FlowRow) (cams : List Camera) (cid T : ℕ) : List ℕ :=
  (activeList cams cid (weekday T)).filter (fun h => hourIsFailing flow cid T h)

def camIds (cams : List Camera) : List ℕ := cams.map (·.id)

/-- First-occurrence deduplication (accumulator form), matching Python
dict-key / `pd.unique` semantics. -/
def dedupAux : List ℕ → List ℕ → List ℕ
  | [], _ => []
  | x :: xs, seen =>
    if seen.contains x then dedupAux xs seen else x :: dedupAux xs (x :: seen)

def dedupKeepFirst (l : List ℕ) : List ℕ := dedupAux l []

/-- The `failing_cameras` dict: camera id to its nonempty list of failing
hours, in camera order. -/
def failingCameras (flow : List FlowRow) (cams : List Camera) (T : ℕ) :
    List (ℕ × List ℕ) :=
  ((dedupKeepFirst (camIds cams)).map
    (fun cid => (cid, failingHours flow cams cid T))).filter (fun p => !p.2.isEmpty)

/-! ## robot.py : cross-camera ratios

Per-date totals and common dates for a camera pair at one hour/weekday.
Python iterates `set & set`, whose order is unspecified; every consumer
(median, mean, std) is order-insensitive, so the model fixes the order of
first occurrence in camera A's rows. -/

def uniqueDates (rows : List FlowRow) : List ℕ :=
  dedupKeepFirst (rows.map (·.date))

def totalOnDate (rows : List FlowRow) (d : ℕ) : ℤ :=
  ((rows.filter (fun r => r.date == d)).map rowTotal).sum

def commonDates (flow : List FlowRow) (a b hour wd : ℕ) : List ℕ :=
  (uniqueDates (histRows flow a hour wd)).filter
    (fun d => (uniqueDates (histRows flow b hour wd)).contains d)

/-- `_get_hourly_ratio` as the class actually binds it (robot.py:1076).
The class body defines `_get_hourly_ratio` twice; this second definition
(WITHOUT the `0.1 < ratio < 10` outlier filter of the first, at
robot.py:735) overwrites the first in the class dict, so it is the method
every caller receives at run time.  Returns `total_B / total_A` per common
date (dates with `total_A > 0`), aggregated by `np.median`; `0` when either
camera has no rows, fewer than 2 common dates exist, or no ratio could be
formed. -/
def hourlyRatioQ (flow : List FlowRow) (a b hour wd : ℕ) : ℚ :=
  if (histRows flow a hour wd).isEmpty || (histRows flow b hour wd).isEmpty then 0
  else if (commonDates flow a b hour wd).length < 2 then 0
  else
    let ratios := ((commonDates flow a b hour wd).filter
        (fun d => decide (0 < totalOnDate (histRows flow a hour wd) d))).map
      (fun d => (totalOnDate (histRows flow b hour wd) d : ℚ) /
        (totalOnDate (histRows flow a hour wd) d : ℚ))
    if ratios.isEmpty then 0 else medianQ ratios

/-- The first, shadowed definition of `_get_hourly_ratio` (robot.py:735):
identical except that per-date ratios outside the open interval
`(0.1, 10)` are discarded as outliers before taking the median.  Dead code
at run time (see `hourlyRatioQ`). -/
def hourlyRatioShadowed (flow : List FlowRow) (a b hour wd : ℕ) : ℚ :=
  if (histRows flow a hour wd).isEmpty || (histRows flow b hour wd).isEmpty then 0
  else if (commonDates flow a b hour wd).length < 2 then 0
  else
    let ratios := (((commonDates flow a b hour wd).filter
        (fun d => decide (0 < totalOnDate (histRows flow a hour wd) d))).map
      (fun d => (totalOnDate (histRows flow b hour wd) d : ℚ) /
        (totalOnDate (histRows flow a hour wd) d : ℚ))).filter
      (fun r => decide ((1 : ℚ) / 10 < r) && decide (r < 10))
    if ratios.isEmpty then 0 else medianQ ratios

/-- `_get_ratio_confidence` (robot.py:790): `min(common/10, 1)`, halved
when at least 3 per-date ratios exist and their coefficient of variation
`np.std/np.mean` exceeds `0.5` (stated with squares:
`std/mean > 1/2 ↔ 4·var > mean²` for positive mean; a zero mean gives
NaN in Python, which compares as not-greater, matching the guard). -/
def ratioConfidenceQ (flow : List FlowRow) (a b hour wd : ℕ) : ℚ :=
  if (commonDates flow a b hour wd).length < 2 then 0
  else
    let ratios := ((commonDates flow a b hour wd).filter
        (fun d => decide (0 < totalOnDate (histRows flow a hour wd) d))).map
      (fun d => (totalOnDate (histRows flow b hour wd) d : ℚ) /
        (totalOnDate (histRows flow a hour wd) d : ℚ))
    let base : ℚ := min (((commonDates flow a b hour wd).length : ℚ) / 10) 1
    if 3 ≤ ratios.length ∧ 0 < meanQ ratios ∧ (meanQ ratios) ^ 2 < 4 * pvarQ ratios
    then base * (1 / 2) else base

/-! ## robot.py : weekday seasonality factors (`_get_weekday_patterns`, 515) -/

def cameraRows (flow : List FlowRow) (cid : ℕ) : List FlowRow :=
  flow.filter (fun r => r.camera == cid)

def weekdayRows (flow : List FlowRow) (cid wd : ℕ) : List FlowRow :=
  flow.filter (fun r => r.camera == cid && weekday r.date == wd)

/-- Per weekday: summed traffic over the hours `0..23` that have data and
lie in the camera's active range, and the number of such hours. -/
def wdTotalsCounts (flow : List FlowRow) (cams : List Camera) (cid wd : ℕ) : ℤ × ℕ :=
  (List.range 24).foldl (fun acc h =>
    let hd := (weekdayRows flow cid wd).filter (fun r => r.hour == h)
    if hd.isEmpty then acc
    else if (getCameraActiveHours cams cid wd).1 ≤ (h : ℤ) ∧
        (h : ℤ) ≤ (getCameraActiveHours cams cid wd).2
    then (acc.1 + (hd.map rowTotal).sum, acc.2 + 1)
    else acc) (0, 0)

def presentWds (flow : List FlowRow) (cams : List Camera) (cid : ℕ) : List ℕ :=
  (List.range 7).filter (fun wd => decide (0 < (wdTotalsCounts flow cams cid wd).2))

def wdAvg (flow : List FlowRow) (cams : List Camera) (cid wd : ℕ) : ℚ :=
  ((wdTotalsCounts flow cams cid wd).1 : ℚ) / ((wdTotalsCounts flow cams cid wd).2 : ℚ)

/-- One step of the fill loop of `_get_weekday_patterns` (robot.py:560-568):
a weekday without a factor inherits the factor of the
`(distance, weekday)`-lexicographically nearest key of the PARTIALLY
FILLED dict (`min` over `(abs(wd - other), other)` for the keys present so
far), so a later missing weekday can inherit through an earlier filled
one; the loop runs over `wd = 0..6` with the dict growing as it fills. -/
def fillStep (m : List (ℕ × ℚ)) (wd : ℕ) : List (ℕ × ℚ) :=
  if m.any (fun p => p.1 == wd) then m
  else
    match m.foldl (fun best p =>
      match best with
      | none => some (max wd p.1 - min wd p.1, p.1, p.2)
      | some (bd, bw, bf) =>
        if max wd p.1 - min wd p.1 < bd ∨ (max wd p.1 - min wd p.1 = bd ∧ p.1 < bw)
        then some (max wd p.1 - min wd p.1, p.1, p.2) else some (bd, bw, bf)) none with
    | none => m
    | some q => m ++ [(wd, q.2.2)]

/-- The `weekday_factors` dict after normalization and the fill loop:
present weekdays map to `avg / overall`, then `fillStep` runs for
`wd = 0..6` over the growing dict. -/
def filledFactors (flow : List FlowRow) (cams : List Camera) (cid : ℕ) :
    List (ℕ × ℚ) :=
  (List.range 7).foldl fillStep
    ((presentWds flow cams cid).map (fun wd =>
      (wd, wdAvg flow cams cid wd /
        meanQ ((presentWds flow cams cid).map (wdAvg flow cams cid)))))

def lookupFactor (m : List (ℕ × ℚ)) (wd : ℕ) : ℚ :=
  match m.find? (fun p => p.1 == wd) with
  | some p => p.2
  | none => 1

/-- `_get_weekday_patterns`: factor of each weekday relative to the
overall per-active-hour average; all `1` when the camera has no rows or no
weekday qualifies; weekdays without data are filled by the sequential
loop of `fillStep`.  `none` models the case `overall average = 0`, where
the Python factors become `nan`/`inf` and the later `int(avg * factor)`
raises (aborting the processing pass). -/
def weekdayFactorsQ (flow : List FlowRow) (cams : List Camera) (cid : ℕ) :
    Option (ℕ → ℚ) :=
  if (cameraRows flow cid).isEmpty then some (fun _ => 1)
  else if (presentWds flow cams cid).isEmpty then some (fun _ => 1)
  else if meanQ ((presentWds flow cams cid).map (wdAvg flow cams cid)) = 0 then none
  else some (fun wd => lookupFactor (filledFactors flow cams cid) wd)

/-- The factor actually multiplied in (junk value 0 in the `none` case,
which is only ever read behind a crash check). -/
def factorOfD (flow : List FlowRow) (cams : List Camera) (cid wd : ℕ) : ℚ :=
  match weekdayFactorsQ flow cams cid with
  | some f => f wd
  | none => 0

/-! ## robot.py : own-history baseline, combination, sanity checks -/

/-- Whether `_get_own_history_baseline` produces an entry for this hour
(at least 2 historical rows for `(camera, hour, target weekday)`). -/
def baselineHas (flow : List FlowRow) (cid T h : ℕ) : Bool :=
  2 ≤ (histRows flow cid h (weekday T)).length

/-- `_get_own_history_baseline` (robot.py:708) would hit `int(avg * nan)`
for these hours: factors unavailable while some hour has a baseline. -/
def baselineCrash (flow : List FlowRow) (cams : List Camera) (cid T : ℕ)
    (hours : List ℕ) : Bool :=
  (weekdayFactorsQ flow cams cid).isNone && hours.any (fun h => baselineHas flow cid T h)

/-- The entry `baseline.get(hour, (0, 0))` of `_get_own_history_baseline`:
weekday-factor-scaled truncated means of inside and outside. -/
def baselineLookup (flow : List FlowRow) (cams : List Camera) (cid T h : ℕ) : ℤ × ℤ :=
  if baselineHas flow cid T h then
    (pyInt (meanQ ((histRows flow cid h (weekday T)).map (fun r => (r.inside : ℚ))) *
       factorOfD flow cams cid (weekday T)),
     pyInt (meanQ ((histRows flow cid h (weekday T)).map (fun r => (r.outside : ℚ))) *
       factorOfD flow cams cid (weekday T)))
  else (0, 0)

/-- `_combine_estimates` (robot.py:832): confidence-weighted average of
the reference estimates; an own-history estimate different from the
`(0, 0)` sentinel is blended in at weight 0.3 against 0.7. -/
def combineEstimates (ests : List (ℤ × ℤ)) (ws : List ℚ) (own : ℤ × ℤ) : ℤ × ℤ :=
  if ests.isEmpty then own
  else if ws.sum = 0 then own
  else
    let wIn : ℚ := ((ests.zip ws).map (fun p => (p.1.1 : ℚ) * (p.2 / ws.sum))).sum
    let wOut : ℚ := ((ests.zip ws).map (fun p => (p.1.2 : ℚ) * (p.2 / ws.sum))).sum
    if own ≠ (0, 0) then
      (pyInt (wIn * (7 / 10) + (own.1 : ℚ) * (3 / 10)),
       pyInt (wOut * (7 / 10) + (own.2 : ℚ) * (3 / 10)))
    else (pyInt wIn, pyInt wOut)

def iqrLower (l : List ℚ) : ℚ :=
  max 0 (quantileQ (1 / 4) l - 3 / 2 * (quantileQ (3 / 4) l - quantileQ (1 / 4) l))

def iqrUpper (l : List ℚ) : ℚ :=
  quantileQ (3 / 4) l + 3 / 2 * (quantileQ (3 / 4) l - quantileQ (1 / 4) l)

/-- Step 1 of `_apply_sanity_checks` (robot.py:864): with at least 3
historical rows, clamp each component to
`[max(0, Q1 - 1.5 IQR), Q3 + 1.5 IQR]` of its own history and truncate
with `int(...)`. -/
def clampStep (ei eo : ℤ) (flow : List FlowRow) (cid hour wd : ℕ) : ℤ × ℤ :=
  if 3 ≤ (histRows flow cid hour wd).length then
    (pyInt (max (iqrLower ((histRows flow cid hour wd).map (fun r => (r.inside : ℚ))))
       (min (ei : ℚ) (iqrUpper ((histRows flow cid hour wd).map (fun r => (r.inside : ℚ)))))),
     pyInt (max (iqrLower ((histRows flow cid hour wd).map (fun r => (r.outside : ℚ))))
       (min (eo : ℚ) (iqrUpper ((histRows flow cid hour wd).map (fun r => (r.outside : ℚ)))))))
  else (ei, eo)

/-- Step 2 of `_apply_sanity_checks`: when `inside < outside`, redistribute
the summed total as `int(total * 0.55)` inside, remainder outside. -/
def balanceStep (p : ℤ × ℤ) : ℤ × ℤ :=
  if p.1 < p.2 then
    (pyInt (((p.1 + p.2 : ℤ) : ℚ) * (55 / 100)),
     p.1 + p.2 - pyInt (((p.1 + p.2 : ℤ) : ℚ) * (55 / 100)))
  else p

/-- `_apply_sanity_checks` (robot.py:864-907): IQR clamp, then the
inside-outside redistribution, then flooring both components at 0. -/
def applySanityChecks (ei eo : ℤ) (flow : List FlowRow) (cid hour wd : ℕ) : ℤ × ℤ :=
  (max 0 (balanceStep (clampStep ei eo flow cid hour wd)).1,
   max 0 (balanceStep (clampStep ei eo flow cid hour wd)).2)

/-! ## robot.py : estimation (`estimate_missing_data`, 574-706)

When at least one camera is working, each failing hour is estimated from
the working reference cameras (cross-camera ratios) combined with the
own-history baseline, then sanity-checked; with no working camera the
whole batch falls back to `_estimate_all_from_own_history`.

The exception paths are modelled by `Option`: `_estimate_all_from_own_history`
calls `self._get_default_value`, which is NOT defined anywhere in
robot.py, so reaching its branch raises `AttributeError`; and a
`nan`/`inf` weekday factor raises at `int(...)`.  Either exception
propagates out of `estimate_missing_data` before any insertion, so the
store is left untouched (`none`). -/

def mkEstRec (cid T h : ℕ) (v : ℤ × ℤ) : EstRec :=
  ⟨cid, T, h, v.1, v.2, 1, 1⟩

/-- The reference loop of `estimate_missing_data` (robot.py:630-673): for
each working camera in order, if it is active at the hour, has a
target-date row, and the historical ratio is positive, contribute
`int(observed / ratio)` with its confidence weight. -/
def referenceEstimatesAt (flow : List FlowRow) (cams : List Camera)
    (cid h T : ℕ) (working : List ℕ) : List ((ℤ × ℤ) × ℚ) :=
  working.filterMap (fun oid =>
    if (getCameraActiveHours cams oid (weekday T)).1 ≤ (h : ℤ) ∧
        (h : ℤ) ≤ (getCameraActiveHours cams oid (weekday T)).2 then
      match (hourRows flow oid T h).head? with
      | none => none
      | some row =>
        if 0 < hourlyRatioQ flow cid oid h (weekday T) then
          some ((pyInt ((row.inside : ℚ) / hourlyRatioQ flow cid oid h (weekday T)),
                 pyInt ((row.outside : ℚ) / hourlyRatioQ flow cid oid h (weekday T))),
                ratioConfidenceQ flow cid oid h (weekday T))
        else none
    else none)

def refHourRaw (flow : List FlowRow) (cams : List Camera) (cid h T : ℕ)
    (working : List ℕ) : ℤ × ℤ :=
  combineEstimates ((referenceEstimatesAt flow cams cid h T working).map Prod.fst)
    ((referenceEstimatesAt flow cams cid h T working).map Prod.snd)
    (baselineLookup flow cams cid T h)

def refHourValue (flow : List FlowRow) (cams : List Camera) (cid h T : ℕ)
    (working : List ℕ) : ℤ × ℤ :=
  applySanityChecks (refHourRaw flow cams cid h T working).1
    (refHourRaw flow cams cid h T working).2 flow cid h (weekday T)

/-- `[h for h in missing_hours if h in set(range(start, end + 1))]`. -/
def filterActiveHours (cams : List Camera) (cid wd : ℕ) (hs : List ℕ) : List ℕ :=
  hs.filter (fun h =>
    decide ((getCameraActiveHours cams cid wd).1 ≤ (h : ℤ)) &&
    decide ((h : ℤ) ≤ (getCameraActiveHours cams cid wd).2))

/-- Does processing this hour in `_estimate_all_from_own_history`
(robot.py:909-974) raise?  Yes when a needed weekday factor is `nan`, or
when the camera has neither 2 same-hour rows nor any same-weekday row,
which reaches the undefined `self._get_default_value`. -/
def ownPathCrashHour (flow : List FlowRow) (cams : List Camera) (cid T h : ℕ) : Bool :=
  if 2 ≤ (histRows flow cid h (weekday T)).length then
    (weekdayFactorsQ flow cams cid).isNone
  else if !(weekdayRows flow cid (weekday T)).isEmpty then
    (weekdayFactorsQ flow cams cid).isNone
  else true

/-- The raw own-history estimate of one hour (robot.py:921-948): the
factor-scaled mean of the `(camera, hour, weekday)` history, falling back
to the mean over all same-weekday rows.  (The remaining branch is
unreachable behind `ownPathCrashHour`.) -/
def ownHourRaw (flow : List FlowRow) (cams : List Camera) (cid T h : ℕ) : ℤ × ℤ :=
  if 2 ≤ (histRows flow cid h (weekday T)).length then
    (pyInt (meanQ ((histRows flow cid h (weekday T)).map (fun r => (r.inside : ℚ))) *
       factorOfD flow cams cid (weekday T)),
     pyInt (meanQ ((histRows flow cid h (weekday T)).map (fun r => (r.outside : ℚ))) *
       factorOfD flow cams cid (weekday T)))
  else if !(weekdayRows flow cid (weekday T)).isEmpty then
    (pyInt (meanQ ((weekdayRows flow cid (weekday T)).map (fun r => (r.inside : ℚ))) *
       factorOfD flow cams cid (weekday T)),
     pyInt (meanQ ((weekdayRows flow cid (weekday T)).map (fun r => (r.outside : ℚ))) *
       factorOfD flow cams cid (weekday T)))
  else (0, 0)

def ownHourValue (flow : List FlowRow) (cams : List Camera) (cid T h : ℕ) : ℤ × ℤ :=
  applySanityChecks (ownHourRaw flow cams cid T h).1 (ownHourRaw flow cams cid T h).2
    flow cid h (weekday T)

def estimateAllFromOwnHistory (flow : List FlowRow) (cams : List Camera)
    (failing : List (ℕ × List ℕ)) (T : ℕ) : Option (List EstRec) :=
  if failing.any (fun p => p.2.any (fun h => ownPathCrashHour flow cams p.1 T h)) then none
  else some (failing.flatMap (fun p =>
    p.2.map (fun h => mkEstRec p.1 T h (ownHourValue flow cams p.1 T h))))

def workingCameras (cams : List Camera) (failing : List (ℕ × List ℕ)) : List ℕ :=
  (camIds cams).filter (fun cid => !failing.any (fun p => p.1 == cid))

def estimateMissingData (flow : List FlowRow) (cams : List Camera)
    (failing : List (ℕ × List ℕ)) (T : ℕ) : Option (List EstRec) :=
  if (workingCameras cams failing).isEmpty then
    estimateAllFromOwnHistory flow cams failing T
  else if failing.any (fun p =>
      baselineCrash flow cams p.1 T (filterActiveHours cams p.1 (weekday T) p.2)) then none
  else some (failing.flatMap (fun p =>
    (filterActiveHours cams p.1 (weekday T) p.2).map (fun h =>
      mkEstRec p.1 T h (refHourValue flow cams p.1 h T (workingCameras cams failing)))))

/-! ## robot.py : idempotent writer (`insert_estimated_data`, 1140-1222)

The writer checks `SELECT id FROM peopleflowtotals WHERE camera_id = ? AND
created_at = ?` (first row in id order) and either INSERTs
`(created_at, camera_id, total_inside, total_outside, valid=1)` — note the
column list does NOT include the record's `estimated` flag, and the table
has no such column — or UPDATEs that row's counts and validity in place.
The preceding `sort_values('camera_id')` is modelled as a stable sort by
camera; the Python default quicksort is unstable, but records of one
camera have distinct hours, hence distinct keys, so the resulting store
contents are unaffected. -/

def rowKey (r : FlowRow) : ℕ × ℕ × ℕ := (r.camera, r.date, r.hour)

def recKey (e : EstRec) : ℕ × ℕ × ℕ := (e.camera, e.date, e.hour)

/-- The row the INSERT statement actually writes: the `estimated` field of
the in-memory record is dropped. -/
def mkRow (e : EstRec) : FlowRow :=
  ⟨e.camera, e.date, e.hour, e.inside, e.outside, 1⟩

def keyExists (s : List FlowRow) (k : ℕ × ℕ × ℕ) : Bool :=
  s.any (fun r => rowKey r == k)

/-- The UPDATE by the existing row's id: rewrite the first row with the
matching key, leaving its position (and key) unchanged. -/
def updateFirst (s : List FlowRow) (e : EstRec) : List FlowRow :=
  match s with
  | [] => []
  | r :: rs =>
    if rowKey r == recKey e then
      { r with inside := e.inside, outside := e.outside, valid := 1 } :: rs
    else r :: updateFirst rs e

def insertLoop : List FlowRow → List EstRec → List FlowRow × ℕ × ℕ
  | s, [] => (s, 0, 0)
  | s, e :: es =>
    if keyExists s (recKey e) then
      match insertLoop (updateFirst s e) es with
      | (s', i, u) => (s', i, u + 1)
    else
      match insertLoop (s ++ [mkRow e]) es with
      | (s', i, u) => (s', i + 1, u)

def sortBatch (b : List EstRec) : List EstRec :=
  b.insertionSort (fun a b => a.camera ≤ b.camera)

/-- `insert_estimated_data`: store after the batch, with the
`(inserted, updated)` counts. -/
def insertEstimatedData (s : List FlowRow) (b : List EstRec) :
    List FlowRow × ℕ × ℕ :=
  insertLoop s (sortBatch b)

/-! ## robot.py : one full pass (`process_client_location`, 1275-1345)

`load_data_for_client_location` keeps rows with `valid = 1` and
`created_at ≥ cutoff`; an empty result skips the pair.  The target date
defaults to the maximum loaded date (`get_last_valid_day`) — here it is an
explicit parameter, matching a fixed target date.  Detection, estimation
and insertion follow; any estimation exception aborts before writing. -/

def loadFlow (store : List FlowRow) (cutoff : ℕ) : List FlowRow :=
  store.filter (fun r => decide (cutoff ≤ r.date) && r.valid == 1)

def pipeline (store : List FlowRow) (cams : List Camera) (cutoff T : ℕ) :
    List FlowRow × ℕ × ℕ :=
  if (loadFlow store cutoff).isEmpty then (store, 0, 0)
  else if (failingCameras (loadFlow store cutoff) cams T).isEmpty then (store, 0, 0)
  else
    match estimateMissingData (loadFlow store cutoff) cams
        (failingCameras (loadFlow store cutoff) cams T) T with
    | none => (store, 0, 0)
    | some batch => insertEstimatedData store batch

/-! ## robot_new.py : the later revision

Functions are defined over the valid working set `flow_df_valid`
(the `valid = 1` rows of the loaded window), passed in as `flow`. -/

/-- `get_camera_active_hours` (robot_new.py:200-233): like the earlier
revision but with default `(9, 18)` and a final swap enforcing
`start ≤ end`. -/
def getCameraActiveHoursNew (cams : List Camera) (cid wd : ℕ) : ℤ × ℤ :=
  match findCamera cams cid with
  | none => (9, 18)
  | some cam =>
    if wd < 7 then
      match cam.schedule wd with
      | (some s, some e) =>
        if max 0 (min 23 s) > max 0 (min 23 e) then
          (max 0 (min 23 e), max 0 (min 23 s))
        else (max 0 (min 23 s), max 0 (min 23 e))
      | _ => (9, 18)
    else (9, 18)

/-- The historical window of `identify_failing_cameras`
(robot_new.py:340-345): same `(camera, hour, weekday)` slice as the
earlier revision, but restricted to dates strictly before the target
date. -/
def histRowsNew (flow : List FlowRow) (cid h T : ℕ) : List FlowRow :=
  flow.filter (fun r => r.camera == cid && r.hour == h &&
    weekday r.date == weekday T && decide (r.date < T))

/-- `_calculate_simple_ratio` (robot_new.py:539-586): the A-relative-to-B
ratio `total_A / total_B` over common dates with `total_B > 0`, filtered
to `(0.1, 10)`, aggregated by median — with default `1.0` (not `0`)
whenever no usable ratio exists. -/
def calcSimpleRatioQ (flow : List FlowRow) (a b hour wd : ℕ) : ℚ :=
  if (histRows flow a hour wd).isEmpty || (histRows flow b hour wd).isEmpty then 1
  else if (commonDates flow a b hour wd).length < 2 then 1
  else
    let ratios := (((commonDates flow a b hour wd).filter
        (fun d => decide (0 < totalOnDate (histRows flow b hour wd) d))).map
      (fun d => (totalOnDate (histRows flow a hour wd) d : ℚ) /
        (totalOnDate (histRows flow b hour wd) d : ℚ))).filter
      (fun r => decide ((1 : ℚ) / 10 < r) && decide (r < 10))
    if ratios.isEmpty then 1 else medianQ ratios

/-- The loop body of `_simple_estimate_from_reference` for one reference
camera: `some` estimate when the camera is active at the hour, has a
target-date row, and a positive ratio; `none` otherwise. -/
def tier1Candidate (flow : List FlowRow) (cams : List Camera)
    (cid h T : ℕ) (oid : ℕ) : Option (ℤ × ℤ) :=
  if (getCameraActiveHoursNew cams oid (weekday T)).1 ≤ (h : ℤ) ∧
      (h : ℤ) ≤ (getCameraActiveHoursNew cams oid (weekday T)).2 then
    match (flow.filter (fun r => r.camera == oid && r.date == T && r.hour == h)).head? with
    | none => none
    | some row =>
      if 0 < calcSimpleRatioQ flow cid oid h (weekday T) then
        some (pyInt ((row.inside : ℚ) * calcSimpleRatioQ flow cid oid h (weekday T)),
              pyInt ((row.outside : ℚ) * calcSimpleRatioQ flow cid oid h (weekday T)))
      else none
  else none

/-- Tier 1, `_simple_estimate_from_reference` (robot_new.py:504-537): the
first working camera that yields a candidate wins; otherwise `(0, 0)`. -/
def simpleEstimateFromReference (flow : List FlowRow) (cams : List Camera)
    (cid h T : ℕ) (working : List ℕ) : ℤ × ℤ :=
  (working.filterMap (tier1Candidate flow cams cid h T)).headD (0, 0)

/-- Tier 2, `_estimate_from_own_history_simple` (robot_new.py:588-614):
truncated medians of inside and outside over the strictly-prior
same-hour-same-weekday history (needs at least 2 rows). -/
def estimateFromOwnHistorySimple (flow : List FlowRow) (cid h T : ℕ) : ℤ × ℤ :=
  if 2 ≤ (histRowsNew flow cid h T).length then
    (pyInt (medianQ ((histRowsNew flow cid h T).map (fun r => (r.inside : ℚ)))),
     pyInt (medianQ ((histRowsNew flow cid h T).map (fun r => (r.outside : ℚ)))))
  else (0, 0)

/-- `_get_simple_weekday_factors` (robot_new.py:649-686). -/
def simpleWeekdayFactors (flow : List FlowRow) (cid : ℕ) (wd : ℕ) : ℚ :=
  if (cameraRows flow cid).isEmpty then 1
  else if ((List.range 7).filter (fun w => !(weekdayRows flow cid w).isEmpty)).isEmpty then 1
  else if meanQ (((List.range 7).filter (fun w => !(weekdayRows flow cid w).isEmpty)).map
      (fun w => meanQ ((weekdayRows flow cid w).map (fun r => (rowTotal r : ℚ))))) = 0 then 1
  else if (weekdayRows flow cid wd).isEmpty then 1
  else meanQ ((weekdayRows flow cid wd).map (fun r => (rowTotal r : ℚ))) /
    meanQ (((List.range 7).filter (fun w => !(weekdayRows flow cid w).isEmpty)).map
      (fun w => meanQ ((weekdayRows flow cid w).map (fun r => (rowTotal r : ℚ)))))

/-- Tier 3, `_estimate_from_weekday_pattern_simple` (robot_new.py:616-647):
all-weekday per-hour means scaled by the weekday factor. -/
def estimateFromWeekdayPattern (flow : List FlowRow) (cid h T : ℕ) : ℤ × ℤ :=
  if (flow.filter (fun r => r.camera == cid && r.hour == h)).isEmpty then (0, 0)
  else
    (pyInt (meanQ ((flow.filter (fun r => r.camera == cid && r.hour == h)).map
        (fun r => (r.inside : ℚ))) * simpleWeekdayFactors flow cid (weekday T)),
     pyInt (meanQ ((flow.filter (fun r => r.camera == cid && r.hour == h)).map
        (fun r => (r.outside : ℚ))) * simpleWeekdayFactors flow cid (weekday T)))

/-- Tier 4, `_fallback_estimate_simple` (robot_new.py:688-702): the fixed
time-of-day default table. -/
def fallbackEstimateSimple (h : ℕ) : ℤ × ℤ :=
  if 6 ≤ h ∧ h ≤ 9 then (15, 12)
  else if 10 ≤ h ∧ h ≤ 14 then (25, 20)
  else if 15 ≤ h ∧ h ≤ 18 then (35, 30)
  else if 19 ≤ h ∧ h ≤ 22 then (20, 15)
  else (5, 3)

/-- The final adjustment of `estimate_missing_data` (robot_new.py:457-469):
when the total is positive and `inside < outside`, redistribute
`int(total * 0.6)` inside, remainder outside; then floor both at 0. -/
def robotNewFinalize (p : ℤ × ℤ) : ℤ × ℤ :=
  if 0 < p.1 + p.2 ∧ p.1 < p.2 then
    (max 0 (pyInt (((p.1 + p.2 : ℤ) : ℚ) * (6 / 10))),
     max 0 (p.1 + p.2 - pyInt (((p.1 + p.2 : ℤ) : ℚ) * (6 / 10))))
  else (max 0 p.1, max 0 p.2)

/-- One hour of `estimate_missing_data` (robot_new.py:434-469): the
four-tier fallback cascade — each tier result equal to the `(0, 0)`
sentinel triggers the next tier — followed by the final adjustment. -/
def robotNewHourEstimate (flow : List FlowRow) (cams : List Camera)
    (cid h T : ℕ) (working : List ℕ) : ℤ × ℤ :=
  robotNewFinalize
    (if simpleEstimateFromReference flow cams cid h T working ≠ (0, 0) then
      simpleEstimateFromReference flow cams cid h T working
    else if estimateFromOwnHistorySimple flow cid h T ≠ (0, 0) then
      estimateFromOwnHistorySimple flow cid h T
    else if estimateFromWeekdayPattern flow cid h T ≠ (0, 0) then
      estimateFromWeekdayPattern flow cid h T
    else fallbackEstimateSimple h)

/-! ## Spec-side definitions

Definitions transcribed from the claims' wording, used to compare a
claimed behaviour with the behaviour of the code. -/

/-- From claim C4's wording: the historical totals over prior records
only, i.e. the robot.py `(camera, hour, weekday)` slice further restricted
to dates strictly before the target date. -/
def histTotalsPriorQ (flow : List FlowRow) (cid hour wd T : ℕ) : List ℚ :=
  ((histRows flow cid hour wd).filter (fun r => decide (r.date < T))).map
    (fun r => ((rowTotal r : ℚ)))

/-- From claim C5's wording: 0 with fewer than 2 common dates; otherwise
per-date ratios `total_B / total_A` over common dates with `total_A > 0`,
every ratio outside `(0.1, 10)` discarded, and the median of the rest. -/
def ratioClaimC5 (flow : List FlowRow) (a b hour wd : ℕ) : ℚ :=
  if (commonDates flow a b hour wd).length < 2 then 0
  else
    let kept := ((((commonDates flow a b hour wd).filter
        (fun d => decide (0 < totalOnDate (histRows flow a hour wd) d))).map
      (fun d => (totalOnDate (histRows flow b hour wd) d : ℚ) /
        (totalOnDate (histRows flow a hour wd) d : ℚ))).filter
      (fun r => decide ((1 : ℚ) / 10 < r) && decide (r < 10)))
    if kept.isEmpty then 0 else medianQ kept

/-- From amended claim C5's wording: the effective estimator returns 0
with fewer than 2 common dates or when no per-date ratio can be formed,
and otherwise the median of ALL per-date ratios `total_B / total_A` over
common dates with `total_A > 0`, without any outlier filtering. -/
def ratioAmendedSpec (flow : List FlowRow) (a b hour wd : ℕ) : ℚ :=
  if (commonDates flow a b hour wd).length < 2 then 0
  else
    let rs := ((commonDates flow a b hour wd).filter
        (fun d => decide (0 < totalOnDate (histRows flow a hour wd) d))).map
      (fun d => (totalOnDate (histRows flow b hour wd) d : ℚ) /
        (totalOnDate (histRows flow a hour wd) d : ℚ))
    if rs.isEmpty then 0 else medianQ rs

/-- From amended claim C10's wording: the pure confidence-weighted average
of the reference estimates, with no own-history contribution —
`(0, 0)` when there is nothing to average. -/
def pureWeighted (ests : List (ℤ × ℤ)) (ws : List ℚ) : ℤ × ℤ :=
  if ests.isEmpty ∨ ws.sum = 0 then (0, 0)
  else
    (pyInt (((ests.zip ws).map (fun p => (p.1.1 : ℚ) * p.2)).sum / ws.sum),
     pyInt (((ests.zip ws).map (fun p => (p.1.2 : ℚ) * p.2)).sum / ws.sum))

/-! ## Concrete scenarios used by the individual checks -/

/-- Three historical rows for `(camera 1, hour 10, weekday 0)` with
insides `10, 11, 13` (so `Q1 = 10.5`, `Q3 = 12`, `IQR = 1.5`, lower
fence `8.25`) and outsides `0, 0, 0`. -/
def c3flow : List FlowRow :=
  [⟨1, 0, 10, 10, 0, 1⟩, ⟨1, 7, 10, 11, 0, 1⟩, ⟨1, 14, 10, 13, 0, 1⟩]

/-- Like `c3flow` but with outsides `20, 24, 28` (outside fences
`[16, 32]`), so that a clamped pair can be unbalanced and trigger the
55/45 redistribution. -/
def c3flowB : List FlowRow :=
  [⟨1, 0, 10, 10, 20, 1⟩, ⟨1, 7, 10, 11, 24, 1⟩, ⟨1, 14, 10, 13, 28, 1⟩]

/-- Two rows for `(camera 1, hour 10, weekday 0)`: one prior date (total
3) and the target date 7 itself (total 90). -/
def c4flow : List FlowRow := [⟨1, 0, 10, 2, 1, 1⟩, ⟨1, 7, 10, 50, 40, 1⟩]

/-- Cameras 1 and 2 share two common dates at hour 10 weekday 0, with
per-date ratios `100/1 = 100` (an outlier) and `2/1 = 2`. -/
def c5flow : List FlowRow :=
  [⟨1, 0, 10, 1, 0, 1⟩, ⟨1, 7, 10, 1, 0, 1⟩,
   ⟨2, 0, 10, 100, 0, 1⟩, ⟨2, 7, 10, 2, 0, 1⟩]

def c6cams : List Camera :=
  [⟨1, fun _ => (some 9, some 18)⟩, ⟨2, fun _ => (some 9, some 18)⟩]

/-- Scenario B's window: cameras 1 (failing A) and 2 (working reference
B) share 4 common historical dates at hour 10 of weekday 0 with
per-date totals 15 and 30, hence consistent ratio B/A = 2; on the
target date 28 camera B reports `30 / 24` and camera A has no row. -/
def c6flow : List FlowRow :=
  [⟨1, 0, 10, 10, 5, 1⟩, ⟨1, 7, 10, 10, 5, 1⟩,
   ⟨1, 14, 10, 10, 5, 1⟩, ⟨1, 21, 10, 10, 5, 1⟩,
   ⟨2, 0, 10, 20, 10, 1⟩, ⟨2, 7, 10, 20, 10, 1⟩,
   ⟨2, 14, 10, 20, 10, 1⟩, ⟨2, 21, 10, 20, 10, 1⟩,
   ⟨2, 28, 10, 30, 24, 1⟩]

def c10cams : List Camera :=
  [⟨1, fun _ => (some 9, some 18)⟩, ⟨2, fun _ => (some 9, some 18)⟩]

/-- Camera 2 is healthy and reports `1 / 0` on the target date 14 at hour
10; its historical ratio to camera 1 is 5, so the cross-camera estimate
for camera 1 is `int(1/5) = 0` inside, `int(0/5) = 0` outside. -/
def c10flow : List FlowRow :=
  [⟨1, 0, 10, 1, 0, 1⟩, ⟨1, 7, 10, 1, 0, 1⟩,
   ⟨2, 0, 10, 5, 0, 1⟩, ⟨2, 7, 10, 5, 0, 1⟩, ⟨2, 14, 10, 1, 0, 1⟩]

/-- One camera, active hours 10-11 every weekday. -/
def c1cams : List Camera := [⟨1, fun _ => (some 10, some 11)⟩]

/-- Initial store: one prior Monday (day 0) with a tiny hour-10 total and
a larger hour-11 total, and the target Monday (day 7) reporting only
hour 10. -/
def c1store : List FlowRow :=
  [⟨1, 0, 10, 2, 1, 1⟩, ⟨1, 0, 11, 8, 5, 1⟩, ⟨1, 7, 10, 2, 1, 1⟩]

/-! ## Theorems

Batteries marks `Rat` arithmetic `@[irreducible]`; restore the default
reducibility locally so that concrete statements evaluate by `decide`. -/

attribute [local semireducible] Rat.add Rat.mul Rat.inv Rat.sub Rat.ofScientific

/-! ### Writer lemmas -/

theorem updateFirst_mapKey (s : List FlowRow) (e : EstRec) :
    (updateFirst s e).map rowKey = s.map rowKey := by
  induction s with
  | nil => rfl
  | cons r rs ih =>
    unfold updateFirst
    by_cases h : (rowKey r == recKey e) = true
    · rw [if_pos h]
      simp only [List.map_cons]
      rfl
    · rw [if_neg h]
      simp only [List.map_cons, ih]

theorem keyExists_iff {s : List FlowRow} {k : ℕ × ℕ × ℕ} :
    keyExists s k = true ↔ k ∈ s.map rowKey := by
  unfold keyExists
  rw [List.any_eq_true]
  constructor
  · rintro ⟨r, hr, hrk⟩
    exact List.mem_map.mpr ⟨r, hr, (beq_iff_eq.mp hrk)⟩
  · rintro hk
    obtain ⟨r, hr, rfl⟩ := List.mem_map.mp hk
    exact ⟨r, hr, beq_iff_eq.mpr rfl⟩

theorem insertLoop_mapKey_of_all {es : List EstRec} :
    ∀ {s : List FlowRow}, (∀ e ∈ es, keyExists s (recKey e) = true) →
      (insertLoop s es).1.map rowKey = s.map rowKey ∧ (insertLoop s es).2.1 = 0 := by
  induction es with
  | nil => intro s _; exact ⟨rfl, rfl⟩
  | cons e es ih =>
    intro s hall
    have he : keyExists s (recKey e) = true := hall e (List.mem_cons_self e es)
    unfold insertLoop
    rw [if_pos he]
    have hall' : ∀ e' ∈ es, keyExists (updateFirst s e) (recKey e') = true := by
      intro e' he'
      rw [keyExists_iff, updateFirst_mapKey]
      exact keyExists_iff.mp (hall e' (List.mem_cons_of_mem e he'))
    obtain ⟨h1, h2⟩ := ih hall'
    rcases hres : insertLoop (updateFirst s e) es with ⟨s', i, u⟩
    rw [hres] at h1 h2
    refine ⟨?_, h2⟩
    rw [h1, updateFirst_mapKey]

theorem insertLoop_keys {es : List EstRec} :
    ∀ {s : List FlowRow} (k : ℕ × ℕ × ℕ),
      keyExists (insertLoop s es).1 k = true ↔
        (keyExists s k = true ∨ ∃ e ∈ es, recKey e = k) := by
  induction es with
  | nil => intro s k; simp [insertLoop]
  | cons e es ih =>
    intro s k
    unfold insertLoop
    by_cases he : keyExists s (recKey e) = true
    · rw [if_pos he]
      rcases hres : insertLoop (updateFirst s e) es with ⟨s', i, u⟩
      have := ih (s := updateFirst s e) k
      rw [hres] at this
      dsimp only at this ⊢
      rw [this]
      rw [keyExists_iff, updateFirst_mapKey, ← keyExists_iff]
      constructor
      · rintro (hk | ⟨e', he', rfl⟩)
        · exact Or.inl hk
        · exact Or.inr ⟨e', List.mem_cons_of_mem e he', rfl⟩
      · rintro (hk | ⟨e', he', rfl⟩)
        · exact Or.inl hk
        · rcases List.mem_cons.mp he' with rfl | he''
          · exact Or.inl he
          · exact Or.inr ⟨e', he'', rfl⟩
    · rw [if_neg he]
      rcases hres : insertLoop (s ++ [mkRow e]) es with ⟨s', i, u⟩
      have := ih (s := s ++ [mkRow e]) k
      rw [hres] at this
      dsimp only at this ⊢
      rw [this]
      have hkey : keyExists (s ++ [mkRow e]) k = true ↔
          (keyExists s k = true ∨ recKey e = k) := by
        rw [keyExists_iff, keyExists_iff, List.map_append]
        simp only [List.mem_append, List.map_cons, List.map_nil, List.mem_singleton]
        have : rowKey (mkRow e) = recKey e := rfl
        rw [this]
        constructor
        · rintro (h | h)
          · exact Or.inl h
          · exact Or.inr h.symm
        · rintro (h | h)
          · exact Or.inl h
          · exact Or.inr h.symm
      rw [hkey]
      constructor
      · rintro ((hk | hk) | ⟨e', he', rfl⟩)
        · exact Or.inl hk
        · exact Or.inr ⟨e, List.mem_cons_self e es, hk⟩
        · exact Or.inr ⟨e', List.mem_cons_of_mem e he', rfl⟩
      · rintro (hk | ⟨e', he', rfl⟩)
        · exact Or.inl (Or.inl hk)
        · rcases List.mem_cons.mp he' with rfl | he''
          · exact Or.inl (Or.inr rfl)
          · exact Or.inr ⟨e', he'', rfl⟩

theorem insertLoop_nodup {es : List EstRec} :
    ∀ {s : List FlowRow}, ((s.map rowKey).Nodup) →
      ((insertLoop s es).1.map rowKey).Nodup := by
  induction es with
  | nil => intro s h; exact h
  | cons e es ih =>
    intro s h
    unfold insertLoop
    by_cases he : keyExists s (recKey e) = true
    · rw [if_pos he]
      rcases hres : insertLoop (updateFirst s e) es with ⟨s', i, u⟩
      have := ih (s := updateFirst s e) (by rw [updateFirst_mapKey]; exact h)
      rw [hres] at this
      exact this
    · rw [if_neg he]
      rcases hres : insertLoop (s ++ [mkRow e]) es with ⟨s', i, u⟩
      have hnd : ((s ++ [mkRow e]).map rowKey).Nodup := by
        rw [List.map_append]
        simp only [List.map_cons, List.map_nil]
        rw [List.nodup_append]
        have hmk : rowKey (mkRow e) = recKey e := rfl
        refine ⟨h, List.nodup_singleton _, ?_⟩
        intro k hk
        simp only [hmk, List.mem_singleton]
        intro hke
        subst hke
        exact he (keyExists_iff.mpr hk)
      have := ih (s := s ++ [mkRow e]) hnd
      rw [hres] at this
      exact this

theorem insertLoop_length {es : List EstRec} :
    ∀ {s : List FlowRow},
      (insertLoop s es).1.length = s.length + (insertLoop s es).2.1 := by
  induction es with
  | nil => intro s; simp [insertLoop]
  | cons e es ih =>
    intro s
    unfold insertLoop
    by_cases he : keyExists s (recKey e) = true
    · rw [if_pos he]
      rcases hres : insertLoop (updateFirst s e) es with ⟨s', i, u⟩
      have := ih (s := updateFirst s e)
      rw [hres] at this
      dsimp only at this ⊢
      rw [this]
      have : (updateFirst s e).length = s.length := by
        have := congrArg List.length (updateFirst_mapKey s e)
        simpa using this
      omega
    · rw [if_neg he]
      rcases hres : insertLoop (s ++ [mkRow e]) es with ⟨s', i, u⟩
      have := ih (s := s ++ [mkRow e])
      rw [hres] at this
      dsimp only at this ⊢
      rw [this]
      simp
      omega

theorem mem_updateFirst {s : List FlowRow} {e : EstRec} {row : FlowRow}
    (h : row ∈ updateFirst s e) :
    row ∈ s ∨ (row.valid = 1 ∧ row.camera = e.camera ∧ row.date = e.date ∧
      row.hour = e.hour ∧ row.inside = e.inside ∧ row.outside = e.outside) := by
  induction s with
  | nil => simp [updateFirst] at h
  | cons r rs ih =>
    unfold updateFirst at h
    by_cases hk : (rowKey r == recKey e) = true
    · rw [if_pos hk] at h
      rcases List.mem_cons.mp h with rfl | hmem
      · right
        have hkey : rowKey r = recKey e := beq_iff_eq.mp hk
        have h1 : r.camera = e.camera := congrArg Prod.fst hkey
        have h2 : r.date = e.date := congrArg (fun p => p.2.1) hkey
        have h3 : r.hour = e.hour := congrArg (fun p => p.2.2) hkey
        exact ⟨rfl, h1, h2, h3, rfl, rfl⟩
      · exact Or.inl (List.mem_cons_of_mem r hmem)
    · rw [if_neg hk] at h
      rcases List.mem_cons.mp h with rfl | hmem
      · exact Or.inl (List.mem_cons_self _ _)
      · rcases ih hmem with h' | h'
        · exact Or.inl (List.mem_cons_of_mem r h')
        · exact Or.inr h'

theorem insertLoop_rows {es : List EstRec} :
    ∀ {s : List FlowRow} {row : FlowRow}, row ∈ (insertLoop s es).1 →
      row ∈ s ∨ (row.valid = 1 ∧ ∃ e ∈ es, row.camera = e.camera ∧
        row.date = e.date ∧ row.hour = e.hour ∧ row.inside = e.inside ∧
        row.outside = e.outside) := by
  induction es with
  | nil => intro s row h; exact Or.inl h
  | cons e es ih =>
    intro s row h
    unfold insertLoop at h
    by_cases he : keyExists s (recKey e) = true
    · rw [if_pos he] at h
      rcases hres : insertLoop (updateFirst s e) es with ⟨s', i, u⟩
      rw [hres] at h
      dsimp only at h
      rcases ih (s := updateFirst s e) (by rw [hres]; exact h) with h' | ⟨hv, e', he', hmatch⟩
      · rcases mem_updateFirst h' with h'' | ⟨hv, hmatch⟩
        · exact Or.inl h''
        · exact Or.inr ⟨hv, e, List.mem_cons_self e es, hmatch⟩
      · exact Or.inr ⟨hv, e', List.mem_cons_of_mem e he', hmatch⟩
    · rw [if_neg he] at h
      rcases hres : insertLoop (s ++ [mkRow e]) es with ⟨s', i, u⟩
      rw [hres] at h
      dsimp only at h
      rcases ih (s := s ++ [mkRow e]) (by rw [hres]; exact h) with h' | ⟨hv, e', he', hmatch⟩
      · rcases List.mem_append.mp h' with h'' | h''
        · exact Or.inl h''
        · right
          rcases List.mem_singleton.mp h''
          exact ⟨rfl, e, List.mem_cons_self e es, rfl, rfl, rfl, rfl, rfl⟩
      · exact Or.inr ⟨hv, e', List.mem_cons_of_mem e he', hmatch⟩

theorem mem_sortBatch {e : EstRec} {b : List EstRec} : e ∈ sortBatch b ↔ e ∈ b :=
  (List.perm_insertionSort _ b).mem_iff

/-! ### Claim C8 -/

/-- Claim C8, counterexample: the claim requires a fresh row to be
inserted with `estimated = true`, but the INSERT of
`insert_estimated_data` writes only
`(created_at, camera_id, total_inside, total_outside, valid)` and the
`peopleflowtotals` table has no `estimated` column at all: two batch
records differing exactly in their `estimated` flag produce identical
stores, and the stored row carries no provenance flag. -/
theorem c8_counterexample :
    (insertEstimatedData [] [⟨1, 7, 10, 5, 3, 1, 1⟩]).1 =
      (insertEstimatedData [] [⟨1, 7, 10, 5, 3, 1, 0⟩]).1 ∧
    (insertEstimatedData [] [⟨1, 7, 10, 5, 3, 1, 1⟩]).1 = [⟨1, 7, 10, 5, 3, 1⟩] ∧
    (⟨1, 7, 10, 5, 3, 1, 1⟩ : EstRec) ≠ ⟨1, 7, 10, 5, 3, 1, 0⟩ :=
  ⟨by decide, by decide, by decide⟩

/-- Claim C8 as amended: for every batch record the writer inserts a new
row with `valid = 1` when no `(camera, timestamp)` row exists and
otherwise updates the existing row in place; it never inserts a second
row for a key that already has one (unique keys are preserved, and the
store grows by exactly the inserted count), and an existing row is
resolved as an update, never an error — but the `estimated` provenance
flag lives only on the in-memory batch records and is not persisted. -/
theorem c8_writer_amended (store : List FlowRow) (batch : List EstRec)
    (hnd : (store.map rowKey).Nodup) :
    ((insertEstimatedData store batch).1.map rowKey).Nodup ∧
    (∀ k, keyExists (insertEstimatedData store batch).1 k = true ↔
      (keyExists store k = true ∨ ∃ e ∈ batch, recKey e = k)) ∧
    (insertEstimatedData store batch).1.length =
      store.length + (insertEstimatedData store batch).2.1 ∧
    ∀ row ∈ (insertEstimatedData store batch).1,
      row ∈ store ∨ (row.valid = 1 ∧ ∃ e ∈ batch, row.camera = e.camera ∧
        row.date = e.date ∧ row.hour = e.hour ∧ row.inside = e.inside ∧
        row.outside = e.outside) := by
  unfold insertEstimatedData
  refine ⟨insertLoop_nodup hnd, ?_, insertLoop_length, ?_⟩
  · intro k
    rw [insertLoop_keys]
    constructor
    · rintro (hk | ⟨e, he, rfl⟩)
      · exact Or.inl hk
      · exact Or.inr ⟨e, mem_sortBatch.mp he, rfl⟩
    · rintro (hk | ⟨e, he, rfl⟩)
      · exact Or.inl hk
      · exact Or.inr ⟨e, mem_sortBatch.mpr he, rfl⟩
  · intro row hrow
    rcases insertLoop_rows hrow with h | ⟨hv, e, he, hm⟩
    · exact Or.inl h
    · exact Or.inr ⟨hv, e, mem_sortBatch.mp he, hm⟩

theorem c8_writer_amended_witness :
    (([⟨1, 7, 10, 4, 4, 0⟩] : List FlowRow).map rowKey).Nodup ∧
    (((insertEstimatedData [⟨1, 7, 10, 4, 4, 0⟩]
        [⟨1, 7, 10, 5, 3, 1, 1⟩, ⟨1, 7, 11, 6, 2, 1, 1⟩]).1.map rowKey).Nodup ∧
      (∀ k, keyExists (insertEstimatedData [⟨1, 7, 10, 4, 4, 0⟩]
          [⟨1, 7, 10, 5, 3, 1, 1⟩, ⟨1, 7, 11, 6, 2, 1, 1⟩]).1 k = true ↔
        (keyExists [⟨1, 7, 10, 4, 4, 0⟩] k = true ∨
          ∃ e ∈ ([⟨1, 7, 10, 5, 3, 1, 1⟩, ⟨1, 7, 11, 6, 2, 1, 1⟩] : List EstRec),
            recKey e = k)) ∧
      (insertEstimatedData [⟨1, 7, 10, 4, 4, 0⟩]
          [⟨1, 7, 10, 5, 3, 1, 1⟩, ⟨1, 7, 11, 6, 2, 1, 1⟩]).1.length =
        ([⟨1, 7, 10, 4, 4, 0⟩] : List FlowRow).length +
          (insertEstimatedData [⟨1, 7, 10, 4, 4, 0⟩]
            [⟨1, 7, 10, 5, 3, 1, 1⟩, ⟨1, 7, 11, 6, 2, 1, 1⟩]).2.1 ∧
      ∀ row ∈ (insertEstimatedData [⟨1, 7, 10, 4, 4, 0⟩]
          [⟨1, 7, 10, 5, 3, 1, 1⟩, ⟨1, 7, 11, 6, 2, 1, 1⟩]).1,
        row ∈ ([⟨1, 7, 10, 4, 4, 0⟩] : List FlowRow) ∨
          (row.valid = 1 ∧
            ∃ e ∈ ([⟨1, 7, 10, 5, 3, 1, 1⟩, ⟨1, 7, 11, 6, 2, 1, 1⟩] : List EstRec),
              row.camera = e.camera ∧ row.date = e.date ∧ row.hour = e.hour ∧
              row.inside = e.inside ∧ row.outside = e.outside)) :=
  ⟨by decide, c8_writer_amended _ _ (by decide)⟩

/-! ### Claim C2 -/

/-- Claim C2, counterexample: on input `(0, 1)` with no history the
sanity-check step returns `(0, 1)`, whose inside component is NOT `≥` the
outside component — the 55% redistribution `int(1 * 0.55) = 0` cannot
repair an odd total of 1. -/
theorem c2_counterexample :
    applySanityChecks 0 1 [] 1 10 0 = (0, 1) ∧
    ¬ ((applySanityChecks 0 1 [] 1 10 0).2 ≤ (applySanityChecks 0 1 [] 1 10 0).1) :=
  ⟨by decide, by decide⟩

/-- Integer bracketing of `int(t * 0.55)`. -/
theorem pyInt_mul_55_bounds (t : ℤ) :
    (0 ≤ t → 20 * pyInt ((t : ℚ) * (55 / 100)) ≤ 11 * t ∧
      11 * t < 20 * pyInt ((t : ℚ) * (55 / 100)) + 20) ∧
    (t < 0 → 11 * t ≤ 20 * pyInt ((t : ℚ) * (55 / 100)) ∧
      20 * pyInt ((t : ℚ) * (55 / 100)) < 11 * t + 20) := by
  constructor
  · intro ht
    have htq : (0 : ℚ) ≤ (t : ℚ) := by exact_mod_cast ht
    have hq : (0 : ℚ) ≤ (t : ℚ) * (55 / 100) := mul_nonneg htq (by norm_num)
    unfold pyInt
    rw [if_neg (not_lt.mpr hq)]
    have h1 : ((⌊(t : ℚ) * (55 / 100)⌋ : ℤ) : ℚ) ≤ (t : ℚ) * (55 / 100) :=
      Int.floor_le _
    have h2 : (t : ℚ) * (55 / 100) < ⌊(t : ℚ) * (55 / 100)⌋ + 1 :=
      Int.lt_floor_add_one _
    constructor
    · have : (20 : ℚ) * ((⌊(t : ℚ) * (55 / 100)⌋ : ℤ) : ℚ) ≤ 11 * (t : ℚ) := by
        linarith
      exact_mod_cast this
    · have : 11 * (t : ℚ) < (20 : ℚ) * ((⌊(t : ℚ) * (55 / 100)⌋ : ℤ) : ℚ) + 20 := by
        linarith
      exact_mod_cast this
  · intro ht
    have htq : (t : ℚ) < 0 := by exact_mod_cast ht
    have hq : (t : ℚ) * (55 / 100) < 0 := mul_neg_of_neg_of_pos htq (by norm_num)
    unfold pyInt
    rw [if_pos hq]
    have h1 : ((⌊-((t : ℚ) * (55 / 100))⌋ : ℤ) : ℚ) ≤ -((t : ℚ) * (55 / 100)) :=
      Int.floor_le _
    have h2 : -((t : ℚ) * (55 / 100)) < ⌊-((t : ℚ) * (55 / 100))⌋ + 1 :=
      Int.lt_floor_add_one _
    constructor
    · have : 11 * (t : ℚ) ≤ (20 : ℚ) * ((-⌊-((t : ℚ) * (55 / 100))⌋ : ℤ) : ℚ) := by
        push_cast
        linarith
      exact_mod_cast this
    · have : (20 : ℚ) * ((-⌊-((t : ℚ) * (55 / 100))⌋ : ℤ) : ℚ) < 11 * (t : ℚ) + 20 := by
        push_cast
        linarith
      exact_mod_cast this

/-- Claim C2 as amended: the sanity-check step guarantees only
`outside ≤ inside + 1` in general; `inside ≥ outside` can fail exactly
when the redistribution acts on an odd total below 10 (equivalently:
whenever it fails, the summed total is odd and below 10). -/
theorem c2_balance_amended (ei eo : ℤ) (flow : List FlowRow) (cid hour wd : ℕ) :
    (applySanityChecks ei eo flow cid hour wd).2 ≤
      (applySanityChecks ei eo flow cid hour wd).1 + 1 ∧
    ((applySanityChecks ei eo flow cid hour wd).2 ≤
        (applySanityChecks ei eo flow cid hour wd).1 ∨
      (¬ 2 ∣ ((applySanityChecks ei eo flow cid hour wd).1 +
          (applySanityChecks ei eo flow cid hour wd).2) ∧
        (applySanityChecks ei eo flow cid hour wd).1 +
          (applySanityChecks ei eo flow cid hour wd).2 < 10)) := by
  unfold applySanityChecks
  set c := clampStep ei eo flow cid hour wd with hc
  unfold balanceStep
  by_cases hlt : c.1 < c.2
  · simp only [if_pos hlt]
    rcases le_or_lt 0 (c.1 + c.2) with ht | ht
    · obtain ⟨h20a, h20b⟩ := (pyInt_mul_55_bounds (c.1 + c.2)).1 ht
      constructor
      · omega
      · omega
    · obtain ⟨h20a, h20b⟩ := (pyInt_mul_55_bounds (c.1 + c.2)).2 ht
      constructor
      · omega
      · omega
  · simp only [if_neg hlt]
    have := not_lt.mp hlt
    constructor
    · omega
    · omega

/-! ### Claim C9 -/

/-- Claim C9: every record produced by the engine has non-negative
counts — both components of `_apply_sanity_checks` (robot.py) end with
`max(0, ·)`, and so do both branches of the final adjustment of
robot_new's `estimate_missing_data`, for all inputs including negative
intermediate estimates. -/
theorem c9_nonneg (ei eo : ℤ) (flow : List FlowRow) (cid hour wd : ℕ) (p : ℤ × ℤ) :
    0 ≤ (applySanityChecks ei eo flow cid hour wd).1 ∧
    0 ≤ (applySanityChecks ei eo flow cid hour wd).2 ∧
    0 ≤ (robotNewFinalize p).1 ∧ 0 ≤ (robotNewFinalize p).2 := by
  refine ⟨le_max_left 0 _, le_max_left 0 _, ?_, ?_⟩ <;>
    · unfold robotNewFinalize
      split
      · exact le_max_left 0 _
      · exact le_max_left 0 _

/-! ### Claim C7 -/

/-- Claim C7, counterexample: the earlier revision's schedule resolver
(robot.py:191) does not order the clamped bounds — a camera whose
schedule entry is `(20, 8)` yields the pair `(20, 8)` with
`start > end`. -/
theorem c7_counterexample :
    getCameraActiveHours [⟨5, fun _ => (some 20, some 8)⟩] 5 0 = (20, 8) ∧
    ¬ ((getCameraActiveHours [⟨5, fun _ => (some 20, some 8)⟩] 5 0).1 ≤
        (getCameraActiveHours [⟨5, fun _ => (some 20, some 8)⟩] 5 0).2) :=
  ⟨by decide, by decide⟩

/-- Claim C7 as amended: both revisions always return a pair of integers
in `[0, 23]` and never fail, with a default when the schedule entry is
absent or null; only the later revision (robot_new.py:200) additionally
guarantees `start ≤ end` by swapping, while the earlier revision
(robot.py:191) can return `start > end`. -/
theorem c7_schedule_amended (cams : List Camera) (cid wd : ℕ) :
    (0 ≤ (getCameraActiveHoursNew cams cid wd).1 ∧
      (getCameraActiveHoursNew cams cid wd).1 ≤ (getCameraActiveHoursNew cams cid wd).2 ∧
      (getCameraActiveHoursNew cams cid wd).2 ≤ 23) ∧
    (0 ≤ (getCameraActiveHours cams cid wd).1 ∧
      (getCameraActiveHours cams cid wd).1 ≤ 23 ∧
      0 ≤ (getCameraActiveHours cams cid wd).2 ∧
      (getCameraActiveHours cams cid wd).2 ≤ 23) := by
  constructor
  · unfold getCameraActiveHoursNew
    rcases hfc : findCamera cams cid with _ | cam
    · norm_num
    · dsimp only
      by_cases h7 : wd < 7
      · rw [if_pos h7]
        rcases hs : cam.schedule wd with ⟨_ | s, _ | e⟩
        · norm_num
        · norm_num
        · norm_num
        · dsimp only
          by_cases hsw : max 0 (min 23 s) > max 0 (min 23 e)
          · rw [if_pos hsw]
            refine ⟨by omega, by omega, by omega⟩
          · rw [if_neg hsw]
            refine ⟨by omega, by omega, by omega⟩
      · rw [if_neg h7]; norm_num
  · unfold getCameraActiveHours
    rcases hfc : findCamera cams cid with _ | cam
    · norm_num
    · dsimp only
      by_cases h7 : wd < 7
      · rw [if_pos h7]
        rcases hs : cam.schedule wd with ⟨_ | s, _ | e⟩
        · norm_num
        · norm_num
        · norm_num
        · dsimp only
          refine ⟨by omega, by omega, by omega, by omega⟩
      · rw [if_neg h7]; norm_num

/-! ### Claim C3 -/


/-- Claim C3, counterexample, in two parts.  Truncation: with 3
historical points the finalized inside estimate for input `(0, 5)` is
`int(max(8.25, min(0, 14.25))) = 8`, strictly below the claimed lower
bound `max(0, Q1 - 1.5 IQR) = 8.25`.  Balance redistribution: on
`c3flowB` the input `(0, 100)` clamps to `(8, 32)` (both components
inside their fences), but the subsequent 55/45 redistribution of the
total 40 finalizes `(22, 18)`, and `22` exceeds the inside upper fence
`Q3 + 1.5 IQR = 14.25` — so the finalized record satisfies no fence
interval at all, not even widened by the truncation slack. -/
theorem c3_counterexample :
    (3 ≤ (histRows c3flow 1 10 0).length ∧
      applySanityChecks 0 5 c3flow 1 10 0 = (8, 0) ∧
      iqrLower ((histRows c3flow 1 10 0).map (fun r => (r.inside : ℚ))) = 33 / 4 ∧
      ((applySanityChecks 0 5 c3flow 1 10 0).1 : ℚ) <
        iqrLower ((histRows c3flow 1 10 0).map (fun r => (r.inside : ℚ)))) ∧
    (3 ≤ (histRows c3flowB 1 10 0).length ∧
      clampStep 0 100 c3flowB 1 10 0 = (8, 32) ∧
      applySanityChecks 0 100 c3flowB 1 10 0 = (22, 18) ∧
      iqrUpper ((histRows c3flowB 1 10 0).map (fun r => (r.inside : ℚ))) = 57 / 4 ∧
      iqrUpper ((histRows c3flowB 1 10 0).map (fun r => (r.inside : ℚ))) <
        ((applySanityChecks 0 100 c3flowB 1 10 0).1 : ℚ)) :=
  ⟨⟨by decide, by decide, by decide, by decide⟩,
   ⟨by decide, by decide, by decide, by decide, by decide⟩⟩

/-- Clamp bracketing for one component: with the fences of a nonempty
non-negative history, `int(max(lower, min(x, upper)))` lies in
`[lower - 1, upper]`. -/
theorem clamp_bounds (x : ℤ) (l : List ℚ) (hl : l ≠ []) (hnn : ∀ v ∈ l, 0 ≤ v) :
    iqrLower l - 1 ≤ (pyInt (max (iqrLower l) (min (x : ℚ) (iqrUpper l))) : ℚ) ∧
    (pyInt (max (iqrLower l) (min (x : ℚ) (iqrUpper l))) : ℚ) ≤ iqrUpper l := by
  have hq13 : quantileQ (1 / 4) l ≤ quantileQ (3 / 4) l :=
    quantile_mono hl (by norm_num) (by norm_num) (by norm_num)
  have hq1 : 0 ≤ quantileQ (1 / 4) l := quantile_nonneg hnn _
  have hq3 : 0 ≤ quantileQ (3 / 4) l := quantile_nonneg hnn _
  have hL0 : 0 ≤ iqrLower l := le_max_left 0 _
  have hLU : iqrLower l ≤ iqrUpper l := by
    unfold iqrLower iqrUpper
    apply max_le
    · linarith
    · linarith
  have hvL : iqrLower l ≤ max (iqrLower l) (min (x : ℚ) (iqrUpper l)) := le_max_left _ _
  have hvU : max (iqrLower l) (min (x : ℚ) (iqrUpper l)) ≤ iqrUpper l :=
    max_le hLU (min_le_right _ _)
  have hv0 : 0 ≤ max (iqrLower l) (min (x : ℚ) (iqrUpper l)) := le_trans hL0 hvL
  have hpy : pyInt (max (iqrLower l) (min (x : ℚ) (iqrUpper l))) =
      ⌊max (iqrLower l) (min (x : ℚ) (iqrUpper l))⌋ := by
    unfold pyInt
    rw [if_neg (not_lt.mpr hv0)]
  rw [hpy]
  constructor
  · have := Int.lt_floor_add_one (max (iqrLower l) (min (x : ℚ) (iqrUpper l)))
    linarith
  · have := Int.floor_le (max (iqrLower l) (min (x : ℚ) (iqrUpper l)))
    linarith

/-- Claim C3 as amended: with at least 3 historical points and
non-negative stored counts, the IQR clamp step (before the balance
redistribution) brings each component into
`[max(0, Q1 - 1.5 IQR) - 1, Q3 + 1.5 IQR]` of its own history (the `- 1`
slack comes from the `int(...)` truncation); the subsequent
redistribution may move the final values outside these fences. -/
theorem c3_clamp_amended (ei eo : ℤ) (flow : List FlowRow) (cid hour wd : ℕ)
    (h3 : 3 ≤ (histRows flow cid hour wd).length)
    (hnn : ∀ r ∈ flow, 0 ≤ r.inside ∧ 0 ≤ r.outside) :
    (iqrLower ((histRows flow cid hour wd).map (fun r => (r.inside : ℚ))) - 1 ≤
        ((clampStep ei eo flow cid hour wd).1 : ℚ) ∧
      ((clampStep ei eo flow cid hour wd).1 : ℚ) ≤
        iqrUpper ((histRows flow cid hour wd).map (fun r => (r.inside : ℚ)))) ∧
    (iqrLower ((histRows flow cid hour wd).map (fun r => (r.outside : ℚ))) - 1 ≤
        ((clampStep ei eo flow cid hour wd).2 : ℚ) ∧
      ((clampStep ei eo flow cid hour wd).2 : ℚ) ≤
        iqrUpper ((histRows flow cid hour wd).map (fun r => (r.outside : ℚ)))) := by
  have hmem : ∀ r ∈ histRows flow cid hour wd, r ∈ flow := by
    intro r hr
    exact List.mem_of_mem_filter hr
  have hne : histRows flow cid hour wd ≠ [] := by
    intro h
    rw [h] at h3
    simp at h3
  have hne_i : (histRows flow cid hour wd).map (fun r => (r.inside : ℚ)) ≠ [] := by
    simpa using hne
  have hne_o : (histRows flow cid hour wd).map (fun r => (r.outside : ℚ)) ≠ [] := by
    simpa using hne
  have hnn_i : ∀ v ∈ (histRows flow cid hour wd).map (fun r => (r.inside : ℚ)), 0 ≤ v := by
    intro v hv
    obtain ⟨r, hr, rfl⟩ := List.mem_map.mp hv
    exact_mod_cast (hnn r (hmem r hr)).1
  have hnn_o : ∀ v ∈ (histRows flow cid hour wd).map (fun r => (r.outside : ℚ)), 0 ≤ v := by
    intro v hv
    obtain ⟨r, hr, rfl⟩ := List.mem_map.mp hv
    exact_mod_cast (hnn r (hmem r hr)).2
  unfold clampStep
  rw [if_pos h3]
  exact ⟨clamp_bounds ei _ hne_i hnn_i, clamp_bounds eo _ hne_o hnn_o⟩

theorem c3_clamp_amended_witness :
    (3 ≤ (histRows c3flow 1 10 0).length ∧ ∀ r ∈ c3flow, 0 ≤ r.inside ∧ 0 ≤ r.outside) ∧
    ((iqrLower ((histRows c3flow 1 10 0).map (fun r => (r.inside : ℚ))) - 1 ≤
        ((clampStep 0 5 c3flow 1 10 0).1 : ℚ) ∧
      ((clampStep 0 5 c3flow 1 10 0).1 : ℚ) ≤
        iqrUpper ((histRows c3flow 1 10 0).map (fun r => (r.inside : ℚ)))) ∧
    (iqrLower ((histRows c3flow 1 10 0).map (fun r => (r.outside : ℚ))) - 1 ≤
        ((clampStep 0 5 c3flow 1 10 0).2 : ℚ) ∧
      ((clampStep 0 5 c3flow 1 10 0).2 : ℚ) ≤
        iqrUpper ((histRows c3flow 1 10 0).map (fun r => (r.outside : ℚ))))) :=
  ⟨⟨by decide, by decide⟩, c3_clamp_amended 0 5 c3flow 1 10 0 (by decide) (by decide)⟩

/-! ### Claim C4 -/


/-- Claim C4, counterexample: the statistics robot.py's detector compares
against (`_get_historical_statistics`, whose `(camera, hour, weekday)`
slice `histRows` / `histTotalsQ` is exactly what `hourIsFailing` reads)
include the target date's own record: with target date 7 the baseline
mean is `(3 + 90) / 2 = 46.5` over 2 records, not the prior-only mean 3
over 1 record that the claim requires. -/
theorem c4_counterexample :
    meanQ (histTotalsQ c4flow 1 10 0) = 93 / 2 ∧
    (histRows c4flow 1 10 0).length = 2 ∧
    meanQ (histTotalsPriorQ c4flow 1 10 0 7) = 3 ∧
    ((histRows c4flow 1 10 0).filter (fun r => decide (r.date < 7))).length = 1 ∧
    meanQ (histTotalsQ c4flow 1 10 0) ≠ meanQ (histTotalsPriorQ c4flow 1 10 0 7) :=
  ⟨by decide, by decide, by decide, by decide, by decide⟩

/-- Claim C4 as amended: only the later revision's detector
(robot_new.py:340) restricts the historical window to dates strictly
before the target date — its baseline is unchanged by any row dated on or
after the target date; the earlier revision includes the target date's
own record in its baseline. -/
theorem c4_prior_only_amended (flow : List FlowRow) (r : FlowRow) (cid h T : ℕ)
    (hr : T ≤ r.date) :
    histRowsNew (flow ++ [r]) cid h T = histRowsNew flow cid h T := by
  unfold histRowsNew
  rw [List.filter_append]
  have hfalse : (r.camera == cid && r.hour == h &&
      (weekday r.date == weekday T) && decide (r.date < T)) = false := by
    have hd : decide (r.date < T) = false := decide_eq_false (by omega)
    rw [hd, Bool.and_false]
  rw [List.filter_cons, List.filter_nil, hfalse]
  simp

theorem c4_prior_only_amended_witness :
    7 ≤ (⟨1, 7, 10, 5, 5, 1⟩ : FlowRow).date ∧
    histRowsNew ([] ++ [⟨1, 7, 10, 5, 5, 1⟩]) 1 10 7 = histRowsNew [] 1 10 7 :=
  ⟨by decide, c4_prior_only_amended [] ⟨1, 7, 10, 5, 5, 1⟩ 1 10 7 (by decide)⟩

/-! ### Claim C5 -/


/-- Claim C5: the estimator the class actually binds (the second
`_get_hourly_ratio`, robot.py:1076, which shadows the outlier-filtering
first definition at robot.py:735) does NOT discard ratios outside
`(0.1, 10)`: on two common dates with ratios `100` and `2` it returns
their median `51`, while both the claim's description and the shadowed
definition (whose own comments document the outlier filter) give `2`.
The fewer-than-2-common-dates clause does return 0 (camera 3 has no
rows). -/
theorem c5_effective_vs_intended :
    hourlyRatioQ c5flow 1 2 10 0 = 51 ∧
    hourlyRatioShadowed c5flow 1 2 10 0 = 2 ∧
    ratioClaimC5 c5flow 1 2 10 0 = 2 ∧
    hourlyRatioQ c5flow 1 2 10 0 ≠ ratioClaimC5 c5flow 1 2 10 0 ∧
    (commonDates c5flow 1 2 10 0).length = 2 ∧
    hourlyRatioQ c5flow 1 3 10 0 = 0 :=
  ⟨by decide, by decide, by decide, by decide, by decide, by decide⟩

/-! ### Claim C6 -/


/-- Claim C6: when a failing camera is estimated from a working, active
reference camera with target-date data and a positive historical ratio
`r = B/A`, the cross-camera estimate is B's observed values divided by
`r` component-wise (with Python `int` truncation); in Scenario B (ratio
2.0, B reporting 30/24) the estimate for A is exactly 15 inside / 12
outside, carrying confidence `min(4/10, 1) = 2/5`. -/
theorem c6_cross_camera :
    (∀ (flow : List FlowRow) (cams : List Camera) (cid h T oid : ℕ) (row : FlowRow),
      (getCameraActiveHours cams oid (weekday T)).1 ≤ (h : ℤ) →
      (h : ℤ) ≤ (getCameraActiveHours cams oid (weekday T)).2 →
      (hourRows flow oid T h).head? = some row →
      0 < hourlyRatioQ flow cid oid h (weekday T) →
      referenceEstimatesAt flow cams cid h T [oid] =
        [((pyInt ((row.inside : ℚ) / hourlyRatioQ flow cid oid h (weekday T)),
           pyInt ((row.outside : ℚ) / hourlyRatioQ flow cid oid h (weekday T))),
          ratioConfidenceQ flow cid oid h (weekday T))]) ∧
    hourlyRatioQ c6flow 1 2 10 (weekday 28) = 2 ∧
    referenceEstimatesAt c6flow c6cams 1 10 28 [2] = [((15, 12), 2 / 5)] := by
  refine ⟨?_, by decide, by decide⟩
  intro flow cams cid h T oid row h1 h2 hhead hratio
  unfold referenceEstimatesAt
  simp only [List.filterMap_cons, List.filterMap_nil]
  rw [if_pos (And.intro h1 h2), hhead]
  simp only [if_pos hratio]

theorem c6_cross_camera_witness :
    referenceEstimatesAt c6flow c6cams 1 10 28 [2] =
      [((pyInt (((⟨2, 28, 10, 30, 24, 1⟩ : FlowRow).inside : ℚ) /
            hourlyRatioQ c6flow 1 2 10 (weekday 28)),
         pyInt (((⟨2, 28, 10, 30, 24, 1⟩ : FlowRow).outside : ℚ) /
            hourlyRatioQ c6flow 1 2 10 (weekday 28))),
        ratioConfidenceQ c6flow 1 2 10 (weekday 28))] :=
  c6_cross_camera.1 c6flow c6cams 1 10 28 2 ⟨2, 28, 10, 30, 24, 1⟩
    (by decide) (by decide) (by decide) (by decide)

/-! ### Claim C10 -/


/-- Claim C10, counterexample: the cross-camera tier — not the
last-resort default — contributes a genuine `(0, 0)` to a finalized
record: the reference estimate for camera 1 is `(0, 0)` with positive
confidence weight `1/5`, and the whole of `estimate_missing_data`
finalizes the record `(0, 0)`, indistinguishable from the sentinel. -/
theorem c10_counterexample :
    referenceEstimatesAt c10flow c10cams 1 10 14 [2] = [((0, 0), 1 / 5)] ∧
    (0 : ℚ) < 1 / 5 ∧
    estimateMissingData c10flow c10cams [(1, [10])] 14 =
      some [⟨1, 14, 10, 0, 0, 1, 1⟩] :=
  ⟨by decide, by decide, by decide⟩

theorem sum_map_div (l : List ((ℤ × ℤ) × ℚ)) (f : (ℤ × ℤ) × ℚ → ℚ) (S : ℚ) :
    (l.map (fun p => f p / S)).sum = (l.map f).sum / S := by
  induction l with
  | nil => simp
  | cons a l ih => simp [ih, add_div]

theorem mem_of_head? {α : Type} {l : List α} {a : α} (h : l.head? = some a) :
    a ∈ l := by
  cases l with
  | nil => simp at h
  | cons x xs =>
    simp only [List.head?_cons, Option.some.injEq] at h
    rw [← h]
    exact List.mem_cons_self _ _

/-- The interpolated median of a nonempty list of positive values is
positive. -/
theorem median_pos {l : List ℚ} (hne : l ≠ []) (hpos : ∀ x ∈ l, 0 < x) :
    0 < medianQ l := by
  unfold medianQ quantileQ
  set s := sortQ l with hs
  have hslen : s.length = l.length := sortQ_length l
  have hsne : 1 ≤ l.length := List.length_pos.mpr hne
  have hspos : ∀ x ∈ s, 0 < x := fun x hx => hpos x (mem_sortQ.mp hx)
  set p : ℚ := (1 / 2) * ((l.length : ℚ) - 1) with hp
  have hp0 : 0 ≤ p := by
    have : (1 : ℚ) ≤ (l.length : ℚ) := by exact_mod_cast hsne
    rw [hp]
    nlinarith
  have hpn : p ≤ (l.length : ℚ) - 1 := by
    have : (1 : ℚ) ≤ (l.length : ℚ) := by exact_mod_cast hsne
    rw [hp]
    nlinarith
  have hi_lt : ⌊p⌋.toNat < s.length := by
    have h1 : ⌊p⌋ ≤ (l.length : ℤ) - 1 := by
      rw [Int.floor_le_iff]
      push_cast
      linarith
    rw [hslen]
    omega
  have hlo : 0 < s.getD ⌊p⌋.toNat 0 := by
    rw [List.getD_eq_getElem s 0 hi_lt]
    exact hspos _ (List.getElem_mem _)
  have hhi : 0 < s.getD (⌊p⌋.toNat + 1) (s.getD ⌊p⌋.toNat 0) := by
    by_cases hin : ⌊p⌋.toNat + 1 < s.length
    · rw [List.getD_eq_getElem s _ hin]
      exact hspos _ (List.getElem_mem _)
    · rw [List.getD_eq_default _ _ (not_lt.mp hin)]
      exact hlo
  unfold interpQ
  rcases le_or_lt (s.getD ⌊p⌋.toNat 0) (s.getD (⌊p⌋.toNat + 1) (s.getD ⌊p⌋.toNat 0)) with
    hcase | hcase
  · have : 0 ≤ (p - ⌊p⌋) * (s.getD (⌊p⌋.toNat + 1) (s.getD ⌊p⌋.toNat 0) -
        s.getD ⌊p⌋.toNat 0) :=
      mul_nonneg (frac_nonneg p) (by linarith)
    linarith
  · have : 1 * (s.getD (⌊p⌋.toNat + 1) (s.getD ⌊p⌋.toNat 0) - s.getD ⌊p⌋.toNat 0) ≤
        (p - ⌊p⌋) * (s.getD (⌊p⌋.toNat + 1) (s.getD ⌊p⌋.toNat 0) - s.getD ⌊p⌋.toNat 0) :=
      mul_le_mul_of_nonpos_right (frac_le_one p) (by linarith)
    linarith

/-- `int(t * 0.6)` stays within `[0, t]` for non-negative `t`. -/
theorem pyInt_mul_06_bounds (t : ℤ) (ht : 0 ≤ t) :
    0 ≤ pyInt ((t : ℚ) * (6 / 10)) ∧ pyInt ((t : ℚ) * (6 / 10)) ≤ t := by
  have htq : (0 : ℚ) ≤ (t : ℚ) := by exact_mod_cast ht
  have hq : (0 : ℚ) ≤ (t : ℚ) * (6 / 10) := mul_nonneg htq (by norm_num)
  unfold pyInt
  rw [if_neg (not_lt.mpr hq)]
  constructor
  · exact Int.floor_nonneg.mpr hq
  · have h1 : ((⌊(t : ℚ) * (6 / 10)⌋ : ℤ) : ℚ) ≤ (t : ℚ) * (6 / 10) := Int.floor_le _
    have : ((⌊(t : ℚ) * (6 / 10)⌋ : ℤ) : ℚ) ≤ (t : ℚ) := by linarith
    exact_mod_cast this

/-- The final adjustment of robot_new's `estimate_missing_data` never
turns a non-negative nonzero pair into `(0, 0)`. -/
theorem robotNewFinalize_ne_zero {v : ℤ × ℤ} (h1 : 0 ≤ v.1) (h2 : 0 ≤ v.2)
    (hne : v ≠ (0, 0)) : robotNewFinalize v ≠ (0, 0) := by
  unfold robotNewFinalize
  by_cases hc : 0 < v.1 + v.2 ∧ v.1 < v.2
  · rw [if_pos hc]
    obtain ⟨hk0, hkt⟩ := pyInt_mul_06_bounds (v.1 + v.2) (le_of_lt hc.1)
    intro heq
    rw [Prod.mk.injEq] at heq
    obtain ⟨ha, hb⟩ := heq
    have := hc.1
    omega
  · rw [if_neg hc]
    intro heq
    rw [Prod.mk.injEq] at heq
    obtain ⟨ha, hb⟩ := heq
    apply hne
    have hv1 : v.1 = 0 := by omega
    have hv2 : v.2 = 0 := by omega
    rw [Prod.ext_iff]
    exact ⟨hv1, hv2⟩

/-- Rows of the `(camera, hour, weekday, prior-date)` slice are rows of
the working set. -/
theorem histRowsNew_subset {flow : List FlowRow} {cid h T : ℕ} {r : FlowRow}
    (hr : r ∈ histRowsNew flow cid h T) : r ∈ flow :=
  List.mem_of_mem_filter hr

/-- Tier 1 of robot_new produces a component-wise non-negative pair on a
non-negative working set. -/
theorem tier1_nonneg (flow : List FlowRow) (cams : List Camera)
    (cid h T : ℕ) (working : List ℕ)
    (hnn : ∀ r ∈ flow, 0 ≤ r.inside ∧ 0 ≤ r.outside) :
    0 ≤ (simpleEstimateFromReference flow cams cid h T working).1 ∧
    0 ≤ (simpleEstimateFromReference flow cams cid h T working).2 := by
  unfold simpleEstimateFromReference
  rcases hl : working.filterMap (tier1Candidate flow cams cid h T) with _ | ⟨x, xs⟩
  · simp [List.headD]
  · have hx : x ∈ working.filterMap (tier1Candidate flow cams cid h T) := by
      rw [hl]
      exact List.mem_cons_self _ _
    obtain ⟨oid, _, hfx⟩ := List.mem_filterMap.mp hx
    simp only [List.headD_cons]
    unfold tier1Candidate at hfx
    split at hfx
    · split at hfx
      · simp at hfx
      · rename_i row hrow
        split at hfx
        · rename_i hratiopos
          simp only [Option.some.injEq] at hfx
          have hrowmem : row ∈ flow :=
            List.mem_of_mem_filter (mem_of_head? hrow)
          have hin : (0 : ℚ) ≤ (row.inside : ℚ) := by
            exact_mod_cast (hnn row hrowmem).1
          have hout : (0 : ℚ) ≤ (row.outside : ℚ) := by
            exact_mod_cast (hnn row hrowmem).2
          rw [← hfx]
          constructor
          · exact pyInt_nonneg (mul_nonneg hin (le_of_lt hratiopos))
          · exact pyInt_nonneg (mul_nonneg hout (le_of_lt hratiopos))
        · simp at hfx
    · simp at hfx

/-- Tier 2 of robot_new produces a component-wise non-negative pair on a
non-negative working set. -/
theorem tier2_nonneg (flow : List FlowRow) (cid h T : ℕ)
    (hnn : ∀ r ∈ flow, 0 ≤ r.inside ∧ 0 ≤ r.outside) :
    0 ≤ (estimateFromOwnHistorySimple flow cid h T).1 ∧
    0 ≤ (estimateFromOwnHistorySimple flow cid h T).2 := by
  unfold estimateFromOwnHistorySimple
  split
  · constructor
    · apply pyInt_nonneg
      apply quantile_nonneg
      intro v hv
      obtain ⟨r, hr, rfl⟩ := List.mem_map.mp hv
      exact_mod_cast (hnn r (histRowsNew_subset hr)).1
    · apply pyInt_nonneg
      apply quantile_nonneg
      intro v hv
      obtain ⟨r, hr, rfl⟩ := List.mem_map.mp hv
      exact_mod_cast (hnn r (histRowsNew_subset hr)).2
  · exact ⟨le_refl 0, le_refl 0⟩

/-- The simple weekday factors are non-negative on a non-negative
working set. -/
theorem simpleWeekdayFactors_nonneg (flow : List FlowRow) (cid wd : ℕ)
    (hnn : ∀ r ∈ flow, 0 ≤ r.inside ∧ 0 ≤ r.outside) :
    0 ≤ simpleWeekdayFactors flow cid wd := by
  have hmean : ∀ w, 0 ≤ meanQ ((weekdayRows flow cid w).map (fun r => (rowTotal r : ℚ))) := by
    intro w
    apply mean_nonneg
    intro v hv
    obtain ⟨r, hr, rfl⟩ := List.mem_map.mp hv
    have h := hnn r (List.mem_of_mem_filter hr)
    have h2 : (0 : ℤ) ≤ rowTotal r := by unfold rowTotal; omega
    exact_mod_cast h2
  unfold simpleWeekdayFactors
  split
  · norm_num
  · split
    · norm_num
    · split
      · norm_num
      · split
        · norm_num
        · apply div_nonneg (hmean _)
          apply mean_nonneg
          intro v hv
          obtain ⟨w, _, rfl⟩ := List.mem_map.mp hv
          exact hmean w

/-- Tier 3 of robot_new produces a component-wise non-negative pair on a
non-negative working set. -/
theorem tier3_nonneg (flow : List FlowRow) (cid h T : ℕ)
    (hnn : ∀ r ∈ flow, 0 ≤ r.inside ∧ 0 ≤ r.outside) :
    0 ≤ (estimateFromWeekdayPattern flow cid h T).1 ∧
    0 ≤ (estimateFromWeekdayPattern flow cid h T).2 := by
  unfold estimateFromWeekdayPattern
  split
  · exact ⟨le_refl 0, le_refl 0⟩
  · have hf := simpleWeekdayFactors_nonneg flow cid (weekday T) hnn
    constructor
    · apply pyInt_nonneg
      apply mul_nonneg _ hf
      apply mean_nonneg
      intro v hv
      obtain ⟨r, hr, rfl⟩ := List.mem_map.mp hv
      exact_mod_cast (hnn r (List.mem_of_mem_filter hr)).1
    · apply pyInt_nonneg
      apply mul_nonneg _ hf
      apply mean_nonneg
      intro v hv
      obtain ⟨r, hr, rfl⟩ := List.mem_map.mp hv
      exact_mod_cast (hnn r (List.mem_of_mem_filter hr)).2

/-- Claim C10 as amended: `(0, 0)` is the no-estimate sentinel — the
earlier revision's combiner never blends an own-history `(0, 0)` (its
result is then the pure confidence-weighted reference average), and in
the later revision each tier result equal to `(0, 0)` falls through to
the next tier, whose nonzero last resort guarantees that NO finalized
record of the later revision is `(0, 0)` on a non-negative working set.
(The earlier revision's cross-camera tier, however, can itself produce a
genuine `(0, 0)` — see the counterexample.) -/
theorem c10_sentinel_amended :
    (∀ (ests : List (ℤ × ℤ)) (ws : List ℚ),
      combineEstimates ests ws (0, 0) = pureWeighted ests ws) ∧
    (∀ (flow : List FlowRow) (cams : List Camera) (cid h T : ℕ) (working : List ℕ),
      (∀ r ∈ flow, 0 ≤ r.inside ∧ 0 ≤ r.outside) →
      robotNewHourEstimate flow cams cid h T working ≠ (0, 0)) := by
  constructor
  · intro ests ws
    unfold combineEstimates pureWeighted
    by_cases he : ests.isEmpty = true
    · rw [if_pos he, if_pos (Or.inl he)]
    · by_cases hw : ws.sum = 0
      · rw [if_neg he, if_pos hw, if_pos (Or.inr hw)]
      · rw [if_neg he, if_neg hw]
        dsimp only
        rw [if_neg (not_not_intro rfl)]
        rw [if_neg (show ¬(ests.isEmpty = true ∨ ws.sum = 0) from by
          rw [not_or]; exact ⟨he, hw⟩)]
        have hcomp : ∀ f : (ℤ × ℤ) × ℚ → ℚ,
            ((ests.zip ws).map (fun p => f p * (p.2 / ws.sum))).sum =
              ((ests.zip ws).map (fun p => f p * p.2)).sum / ws.sum := by
          intro f
          rw [← sum_map_div (ests.zip ws) (fun p => f p * p.2) ws.sum]
          apply congrArg List.sum
          apply List.map_congr_left
          intro p _
          rw [mul_div_assoc]
        rw [hcomp (fun p => (p.1.1 : ℚ)), hcomp (fun p => (p.1.2 : ℚ))]
  · intro flow cams cid h T working hnn
    unfold robotNewHourEstimate
    by_cases h1 : simpleEstimateFromReference flow cams cid h T working ≠ (0, 0)
    · rw [if_pos h1]
      obtain ⟨ha, hb⟩ := tier1_nonneg flow cams cid h T working hnn
      exact robotNewFinalize_ne_zero ha hb h1
    · rw [if_neg h1]
      by_cases h2 : estimateFromOwnHistorySimple flow cid h T ≠ (0, 0)
      · rw [if_pos h2]
        obtain ⟨ha, hb⟩ := tier2_nonneg flow cid h T hnn
        exact robotNewFinalize_ne_zero ha hb h2
      · rw [if_neg h2]
        by_cases h3 : estimateFromWeekdayPattern flow cid h T ≠ (0, 0)
        · rw [if_pos h3]
          obtain ⟨ha, hb⟩ := tier3_nonneg flow cid h T hnn
          exact robotNewFinalize_ne_zero ha hb h3
        · rw [if_neg h3]
          have h4 : 0 ≤ (fallbackEstimateSimple h).1 ∧
              0 ≤ (fallbackEstimateSimple h).2 ∧ fallbackEstimateSimple h ≠ (0, 0) := by
            unfold fallbackEstimateSimple
            split
            · exact ⟨by norm_num, by norm_num, by decide⟩
            · split
              · exact ⟨by norm_num, by norm_num, by decide⟩
              · split
                · exact ⟨by norm_num, by norm_num, by decide⟩
                · split
                  · exact ⟨by norm_num, by norm_num, by decide⟩
                  · exact ⟨by norm_num, by norm_num, by decide⟩
          exact robotNewFinalize_ne_zero h4.1 h4.2.1 h4.2.2

theorem c10_sentinel_amended_witness :
    (∀ r ∈ ([] : List FlowRow), 0 ≤ r.inside ∧ 0 ≤ r.outside) ∧
    robotNewHourEstimate [] [] 1 12 7 [] ≠ (0, 0) :=
  ⟨by simp, c10_sentinel_amended.2 [] [] 1 12 7 [] (by simp)⟩

/-! ### Claim C1 -/


/-- Claim C1, counterexample: running the pipeline twice on the same
store and target date is NOT value-idempotent.  Run 1 estimates the
missing hour 11 from the mean over all weekday rows, inserting
`(4, 2)`; run 2 re-detects hour 11 as failing (total 6 < 10 with scarce
history), but now the estimate of run 1 is part of its own historical
window, so the hour-11 mean has moved and the stored row is rewritten to
`(6, 3) ≠ (4, 2)`. -/
theorem c1_pipeline_counterexample :
    ((pipeline c1store c1cams 0 7).1.filter
        (fun r => rowKey r == (1, 7, 11))).map (fun r => (r.inside, r.outside)) =
      [(4, 2)] ∧
    ((pipeline (pipeline c1store c1cams 0 7).1 c1cams 0 7).1.filter
        (fun r => rowKey r == (1, 7, 11))).map (fun r => (r.inside, r.outside)) =
      [(6, 3)] ∧
    ((4 : ℤ), (2 : ℤ)) ≠ (6, 3) :=
  ⟨by decide, by decide, by decide⟩

theorem mem_dedupAux {a : ℕ} :
    ∀ (l seen : List ℕ), a ∈ dedupAux l seen ↔ (a ∈ l ∧ a ∉ seen) := by
  intro l
  induction l with
  | nil => intro seen; simp [dedupAux]
  | cons x xs ih =>
    intro seen
    unfold dedupAux
    by_cases hx : seen.contains x = true
    · rw [if_pos hx]
      rw [ih seen]
      have hxseen : x ∈ seen := by simpa using hx
      constructor
      · rintro ⟨h1, h2⟩
        exact ⟨List.mem_cons_of_mem x h1, h2⟩
      · rintro ⟨h1, h2⟩
        rcases List.mem_cons.mp h1 with rfl | h1'
        · exact absurd hxseen h2
        · exact ⟨h1', h2⟩
    · rw [if_neg hx]
      have hxseen : x ∉ seen := by simpa using hx
      constructor
      · intro h
        rcases List.mem_cons.mp h with rfl | h'
        · exact ⟨List.mem_cons_self _ _, hxseen⟩
        · obtain ⟨h1, h2⟩ := (ih (x :: seen)).mp h'
          exact ⟨List.mem_cons_of_mem x h1, fun hc => h2 (List.mem_cons_of_mem x hc)⟩
      · rintro ⟨h1, h2⟩
        rcases List.mem_cons.mp h1 with rfl | h1'
        · exact List.mem_cons_self _ _
        · by_cases hax : a = x
          · subst hax
            exact List.mem_cons_self _ _
          · apply List.mem_cons_of_mem
            apply (ih (x :: seen)).mpr
            refine ⟨h1', ?_⟩
            intro hc
            rcases List.mem_cons.mp hc with h | h
            · exact hax h
            · exact h2 h

theorem mem_dedupKeepFirst {a : ℕ} {l : List ℕ} : a ∈ dedupKeepFirst l ↔ a ∈ l := by
  unfold dedupKeepFirst
  rw [mem_dedupAux]
  simp

theorem failingCameras_mem {flow : List FlowRow} {cams : List Camera} {T : ℕ}
    {p : ℕ × List ℕ} (hp : p ∈ failingCameras flow cams T) :
    p.1 ∈ camIds cams ∧ p.2 = failingHours flow cams p.1 T ∧ p.2 ≠ [] := by
  unfold failingCameras at hp
  obtain ⟨hp1, hp2⟩ := List.mem_filter.mp hp
  obtain ⟨cid, hcid, rfl⟩ := List.mem_map.mp hp1
  refine ⟨mem_dedupKeepFirst.mp hcid, rfl, ?_⟩
  simpa using hp2

theorem failingCameras_mem_of {flow : List FlowRow} {cams : List Camera} {T : ℕ}
    {cid : ℕ} (hcid : cid ∈ camIds cams)
    (hne : failingHours flow cams cid T ≠ []) :
    (cid, failingHours flow cams cid T) ∈ failingCameras flow cams T := by
  unfold failingCameras
  apply List.mem_filter.mpr
  refine ⟨List.mem_map.mpr ⟨cid, mem_dedupKeepFirst.mpr hcid, rfl⟩, ?_⟩
  simpa using hne

theorem failingHours_subset {flow : List FlowRow} {cams : List Camera}
    {cid T h : ℕ} (hh : h ∈ failingHours flow cams cid T) :
    h ∈ activeList cams cid (weekday T) :=
  List.mem_of_mem_filter hh

theorem mem_filterActive_of_failing {flow : List FlowRow} {cams : List Camera}
    {cid T h : ℕ} (hh : h ∈ failingHours flow cams cid T) :
    h ∈ filterActiveHours cams cid (weekday T) (failingHours flow cams cid T) := by
  apply List.mem_filter.mpr
  refine ⟨hh, ?_⟩
  have hact := failingHours_subset hh
  unfold activeList at hact
  exact (List.mem_filter.mp hact).2

/-- Soundness of the produced batch: every estimated record is dated at
the target date for a failing camera-hour. -/
theorem estimate_mem_keys {flow : List FlowRow} {cams : List Camera}
    {failing : List (ℕ × List ℕ)} {T : ℕ} {batch : List EstRec}
    (hest : estimateMissingData flow cams failing T = some batch) :
    ∀ e ∈ batch, e.date = T ∧ ∃ p ∈ failing, e.camera = p.1 ∧ e.hour ∈ p.2 := by
  unfold estimateMissingData at hest
  by_cases hw : (workingCameras cams failing).isEmpty = true
  · rw [if_pos hw] at hest
    unfold estimateAllFromOwnHistory at hest
    by_cases hcrash : (failing.any fun p =>
        p.2.any fun h => ownPathCrashHour flow cams p.1 T h) = true
    · rw [if_pos hcrash] at hest
      exact absurd hest (by simp)
    · rw [if_neg hcrash, Option.some_inj] at hest
      intro e he
      rw [← hest] at he
      obtain ⟨p, hp, he2⟩ := List.mem_flatMap.mp he
      obtain ⟨h, hh, rfl⟩ := List.mem_map.mp he2
      exact ⟨rfl, p, hp, rfl, hh⟩
  · rw [if_neg hw] at hest
    by_cases hcrash : (failing.any fun p =>
        baselineCrash flow cams p.1 T (filterActiveHours cams p.1 (weekday T) p.2)) = true
    · rw [if_pos hcrash] at hest
      exact absurd hest (by simp)
    · rw [if_neg hcrash, Option.some_inj] at hest
      intro e he
      rw [← hest] at he
      obtain ⟨p, hp, he2⟩ := List.mem_flatMap.mp he
      obtain ⟨h, hh, rfl⟩ := List.mem_map.mp he2
      exact ⟨rfl, p, hp, rfl, List.mem_of_mem_filter hh⟩

/-- Coverage of the produced batch: every failing hour of a failing
camera receives a record keyed at the target date. -/
theorem estimate_covers {flow : List FlowRow} {cams : List Camera}
    {failing : List (ℕ × List ℕ)} {T : ℕ} {batch : List EstRec}
    (hest : estimateMissingData flow cams failing T = some batch)
    {cid : ℕ} (hp : (cid, failingHours flow cams cid T) ∈ failing)
    {h : ℕ} (hh : h ∈ failingHours flow cams cid T) :
    ∃ e ∈ batch, recKey e = (cid, T, h) := by
  unfold estimateMissingData at hest
  by_cases hw : (workingCameras cams failing).isEmpty = true
  · rw [if_pos hw] at hest
    unfold estimateAllFromOwnHistory at hest
    by_cases hcrash : (failing.any fun p =>
        p.2.any fun h => ownPathCrashHour flow cams p.1 T h) = true
    · rw [if_pos hcrash] at hest
      exact absurd hest (by simp)
    · rw [if_neg hcrash, Option.some_inj] at hest
      refine ⟨mkEstRec cid T h (ownHourValue flow cams cid T h), ?_, rfl⟩
      rw [← hest]
      apply List.mem_flatMap.mpr
      exact ⟨(cid, failingHours flow cams cid T), hp,
        List.mem_map.mpr ⟨h, hh, rfl⟩⟩
  · rw [if_neg hw] at hest
    by_cases hcrash : (failing.any fun p =>
        baselineCrash flow cams p.1 T (filterActiveHours cams p.1 (weekday T) p.2)) = true
    · rw [if_pos hcrash] at hest
      exact absurd hest (by simp)
    · rw [if_neg hcrash, Option.some_inj] at hest
      refine ⟨mkEstRec cid T h
        (refHourValue flow cams cid h T (workingCameras cams failing)), ?_, rfl⟩
      rw [← hest]
      apply List.mem_flatMap.mpr
      exact ⟨(cid, failingHours flow cams cid T), hp,
        List.mem_map.mpr ⟨h, mem_filterActive_of_failing hh, rfl⟩⟩

/-- Either a pipeline pass leaves the store untouched (no data, nothing
failing, or an estimation exception), or it writes exactly one estimated
batch for the failing hours. -/
theorem pipeline_skip_or_write (store : List FlowRow) (cams : List Camera)
    (cutoff T : ℕ) :
    pipeline store cams cutoff T = (store, 0, 0) ∨
    ∃ batch, estimateMissingData (loadFlow store cutoff) cams
        (failingCameras (loadFlow store cutoff) cams T) T = some batch ∧
      pipeline store cams cutoff T = insertEstimatedData store batch := by
  unfold pipeline
  by_cases h1 : (loadFlow store cutoff).isEmpty = true
  · rw [if_pos h1]
    exact Or.inl rfl
  · rw [if_neg h1]
    by_cases h2 : (failingCameras (loadFlow store cutoff) cams T).isEmpty = true
    · rw [if_pos h2]
      exact Or.inl rfl
    · rw [if_neg h2]
      rcases hest : estimateMissingData (loadFlow store cutoff) cams
          (failingCameras (loadFlow store cutoff) cams T) T with _ | batch
      · exact Or.inl rfl
      · exact Or.inr ⟨batch, rfl, rfl⟩

/-- After a pass that wrote batch `batch1`, every active hour of every
camera has a row: hours that were healthy had target-date data already in
the store, and failing hours were covered by the batch. -/
theorem key_after_write {store : List FlowRow} {cams : List Camera}
    {cutoff T : ℕ} {batch1 : List EstRec}
    (hest1 : estimateMissingData (loadFlow store cutoff) cams
      (failingCameras (loadFlow store cutoff) cams T) T = some batch1)
    {cid h : ℕ} (hcid : cid ∈ camIds cams)
    (hact : h ∈ activeList cams cid (weekday T)) :
    keyExists (insertEstimatedData store batch1).1 (cid, T, h) = true := by
  unfold insertEstimatedData
  rw [insertLoop_keys]
  by_cases hfail : hourIsFailing (loadFlow store cutoff) cid T h = true
  · -- the hour was flagged: the batch covers it
    have hh : h ∈ failingHours (loadFlow store cutoff) cams cid T := by
      unfold failingHours
      exact List.mem_filter.mpr ⟨hact, hfail⟩
    have hne : failingHours (loadFlow store cutoff) cams cid T ≠ [] := by
      intro hempty
      rw [hempty] at hh
      exact absurd hh (List.not_mem_nil h)
    obtain ⟨e, he, hkey⟩ := estimate_covers hest1 (failingCameras_mem_of hcid hne) hh
    exact Or.inr ⟨e, mem_sortBatch.mpr he, hkey⟩
  · -- the hour was healthy: it had a target-date row in the store
    rcases hr : (hourRows (loadFlow store cutoff) cid T h).head? with _ | row
    · exfalso
      apply hfail
      unfold hourIsFailing
      rw [hr]
    · have hrow : row ∈ hourRows (loadFlow store cutoff) cid T h := mem_of_head? hr
      obtain ⟨hrowflow, hpred⟩ := List.mem_filter.mp hrow
      have hkey : rowKey row = (cid, T, h) := by
        simp only [Bool.and_eq_true, beq_iff_eq] at hpred
        unfold rowKey
        rw [hpred.1.1.1, hpred.1.1.2, hpred.2]
      left
      rw [keyExists_iff]
      apply List.mem_map.mpr
      exact ⟨row, List.mem_of_mem_filter hrowflow, hkey⟩

/-- Claim C1 as amended: running the full pipeline twice on the same
store, camera set, window cutoff and target date never inserts a new row
on the second run and leaves the stored `(camera, timestamp)` key
sequence exactly as it was after the first run (in particular no
duplicate keys appear and no rows are lost) — the second run resolves
every write as an in-place update.  Stored inside/outside VALUES may
change, however (see the counterexample): estimated rows feed back into
the historical window of the second run. -/
theorem c1_second_run_inserts_nothing (store : List FlowRow) (cams : List Camera)
    (cutoff T : ℕ) :
    (pipeline (pipeline store cams cutoff T).1 cams cutoff T).2.1 = 0 ∧
    (pipeline (pipeline store cams cutoff T).1 cams cutoff T).1.map rowKey =
      (pipeline store cams cutoff T).1.map rowKey := by
  rcases pipeline_skip_or_write store cams cutoff T with h1 | ⟨batch1, hest1, heq1⟩
  · -- run 1 was a no-op: run 2 is the same computation on the same store
    have h1' : (pipeline store cams cutoff T).1 = store := by rw [h1]
    rw [h1', h1]
    exact ⟨rfl, rfl⟩
  · -- run 1 wrote
    rcases pipeline_skip_or_write (pipeline store cams cutoff T).1 cams cutoff T with
      h2 | ⟨batch2, hest2, heq2⟩
    · rw [h2]
      exact ⟨rfl, rfl⟩
    · rw [heq2]
      have hall : ∀ e ∈ sortBatch batch2,
          keyExists (pipeline store cams cutoff T).1 (recKey e) = true := by
        intro e he
        obtain ⟨hdate, p, hp, hcam, hhour⟩ :=
          estimate_mem_keys hest2 e (mem_sortBatch.mp he)
        obtain ⟨hcid, hp2, _⟩ := failingCameras_mem hp
        have hhour' : e.hour ∈ failingHours
            (loadFlow (pipeline store cams cutoff T).1 cutoff) cams p.1 T := by
          rw [← hp2]
          exact hhour
        have hact : e.hour ∈ activeList cams p.1 (weekday T) :=
          failingHours_subset hhour'
        have hkey : recKey e = (p.1, T, e.hour) := by
          unfold recKey
          rw [hcam, hdate]
        rw [hkey, heq1]
        exact key_after_write hest1 hcid hact
      unfold insertEstimatedData
      obtain ⟨hmap, hins⟩ := insertLoop_mapKey_of_all hall
      exact ⟨hins, hmap⟩

end Estimator
